import Mathlib

/-!
# Verification of `OrderSectorsByVisibilityCoverage`

A shallow embedding of
`viewer/src/datamodels/cad/sector/culling/OrderSectorsByVisibilityCoverage.ts`
(class `GpuOrderSectorsByVisibilityCoverage`) and proofs about it.

Modelling conventions:
* JavaScript numbers used for screen coordinates and weights are modelled as
  exact real numbers (`ℝ`); byte values read from the GPU buffer are `ℕ`.
* The GPU render pass itself (three.js `render` / `readRenderTargetPixels`)
  is external to the repository; the pixel buffer read back from the GPU is
  therefore an *input* of the embedded `orderSectorsByVisibility`.
* `THREE.Matrix4` is opaque to every claim (no claim inspects matrix
  entries), so it is modelled as a wrapper around a tag value.
* The JavaScript `Map` that backs `this.containers` is modelled as an
  association list in insertion order (JS `Map` iterates in insertion
  order; `set` on an existing key keeps its position, `delete` removes it).
* The sparse JS array `sectorVisibilityBuffer` (indexed by global sector
  id) is modelled as a `List (Option SectorVisibility)` whose position `i`
  is index `i`; `reduce`/`filter` iterate present entries in index order,
  exactly as JS array methods skip holes.
* `model.scene.getAllSectors()` is implemented outside this repository's
  sources; the flattened sector list is stored directly on the model
  metadata record, which is exactly how the culling code consumes it.
-/

/-- Three.js-style vector of three scalar components. -/
structure Vec3 where
  x : ℚ
  y : ℚ
  z : ℚ
deriving DecidableEq

/-- Axis-aligned box, as consumed by `toThreeJsBox3`/`THREE.Box3`. -/
structure Box3 where
  min : Vec3
  max : Vec3
deriving DecidableEq

/-- `sector.facesFile.coverageFactors` of the sector metadata. -/
structure CoverageFactors where
  xy : ℚ
  xz : ℚ
  yz : ℚ
deriving DecidableEq

/-- The sector metadata fields consumed by the culling code:
`sector.id`, `sector.bounds` and `sector.facesFile.coverageFactors`. -/
structure SectorMetadata where
  id : ℕ
  bounds : Box3
  coverageFactors : CoverageFactors
deriving DecidableEq

/-- Opaque stand-in for `THREE.Matrix4`: no claim inspects matrix entries,
only whether the stored matrix was replaced by another one. -/
structure Matrix4 where
  tag : ℕ
deriving DecidableEq

/-- `CadModelMetadata` as consumed by the culling code: the stable blob URL
key, the model matrix, and the flattened sector list
(`model.scene.getAllSectors()`). -/
structure CadModelMetadata where
  blobUrl : String
  modelMatrix : Matrix4
  sectors : List SectorMetadata
deriving DecidableEq

/-- `bounds.getCenter(...)` for an axis-aligned box. -/
def boxCenter (b : Box3) : Vec3 :=
  ⟨(b.min.x + b.max.x) / 2, (b.min.y + b.max.y) / 2, (b.min.z + b.max.z) / 2⟩

/-- `bounds.getSize(...)` for an axis-aligned box. -/
def boxSize (b : Box3) : Vec3 :=
  ⟨b.max.x - b.min.x, b.max.y - b.min.y, b.max.z - b.min.z⟩

/-- Per-instance transform produced by
`new THREE.Matrix4().compose(translation, identityRotation, scale)`. -/
structure InstanceTransform where
  translation : Vec3
  scale : Vec3
deriving DecidableEq

/-- Write into a `Float32Array` of length `len`: out-of-range writes are
silently dropped, exactly as for JS typed arrays. -/
def taWrite (len : ℕ) (a : ℕ → ℚ) (i : ℕ) (v : ℚ) : ℕ → ℚ :=
  if i < len then Function.update a i v else a

/-- Write into the fixed-size instance-matrix store of a
`THREE.InstancedMesh` (`setMatrixAt`); out-of-range writes are dropped. -/
def matWrite (len : ℕ) (a : ℕ → Option InstanceTransform) (i : ℕ)
    (v : InstanceTransform) : ℕ → Option InstanceTransform :=
  if i < len then Function.update a i (some v) else a

/-- The `THREE.InstancedMesh` built by `createSectorTreeMesh`: instance
count, the interleaved `instanceValues` buffer (`Float32Array` of length
`4 * count`, layout `sectorId, coverageFactor[3]` per instance) and the
per-instance transforms. -/
structure ProxyMesh where
  count : ℕ
  instanceValues : ℕ → ℚ
  transforms : ℕ → Option InstanceTransform

/-- The `THREE.Group` returned by `createSectorTreeMesh`: its world matrix
and the instanced mesh it contains. -/
structure ProxyGroup where
  matrix : Matrix4
  mesh : ProxyMesh

/-- One `addSector` call of `createSectorTreeMesh`: sets the instance
transform at slot `sectorId` and fills
`instanceValues[4*sectorId .. 4*sectorId+3]` with
`(sectorIdOffset + sectorId, coverage.x, coverage.y, coverage.z)`. -/
def addSector (sectorIdOffset : ℕ) (m : ProxyMesh) (bounds : Box3)
    (sectorId : ℕ) (coverage : Vec3) : ProxyMesh :=
  let translation := boxCenter bounds
  let scale := boxSize bounds
  let transforms := matWrite m.count m.transforms sectorId ⟨translation, scale⟩
  let v0 := taWrite (4 * m.count) m.instanceValues (4 * sectorId)
    ((sectorIdOffset : ℚ) + (sectorId : ℚ))
  let v1 := taWrite (4 * m.count) v0 (4 * sectorId + 1) coverage.x
  let v2 := taWrite (4 * m.count) v1 (4 * sectorId + 2) coverage.y
  let v3 := taWrite (4 * m.count) v2 (4 * sectorId + 3) coverage.z
  { m with transforms := transforms, instanceValues := v3 }

/-- `createSectorTreeMesh(sectorIdOffset, sectors, modelMatrix)`: builds a
group carrying `modelMatrix` (`group.applyMatrix4(modelMatrix)` starting
from the identity) containing one instanced mesh with `sectors.length`
instances; each sector `s` contributes
`addSector(s.bounds, s.id, (yz, xz, xy))` from its coverage factors
(`coverageFactors.set(yz, xz, xy)` in the source). -/
def createSectorTreeMesh (sectorIdOffset : ℕ) (sectors : List SectorMetadata)
    (modelMatrix : Matrix4) : ProxyGroup :=
  let sectorCount := sectors.length
  let init : ProxyMesh := ⟨sectorCount, fun _ => 0, fun _ => none⟩
  let mesh := sectors.foldl
    (fun m s =>
      addSector sectorIdOffset m s.bounds s.id
        ⟨s.coverageFactors.yz, s.coverageFactors.xz, s.coverageFactors.xy⟩)
    init
  ⟨modelMatrix, mesh⟩

/-- `SectorContainer` record stored in `this.containers`. -/
structure SectorContainer where
  model : CadModelMetadata
  sectors : List SectorMetadata
  sectorIdOffset : ℕ
  renderable : ProxyGroup

/-- Insertion-ordered association list backing the JS `Map`. -/
def ContainerMap := List (String × SectorContainer)

/-- `Map.get`. -/
def mapGet (m : List (String × SectorContainer)) (k : String) :
    Option SectorContainer :=
  (m.find? (fun kv => kv.1 = k)).map (fun kv => kv.2)

/-- `Map.set`: replaces the value in place when the key is present
(keeping its position), appends otherwise. -/
def mapSet (m : List (String × SectorContainer)) (k : String)
    (v : SectorContainer) : List (String × SectorContainer) :=
  match m with
  | [] => [(k, v)]
  | kv :: t => if kv.1 = k then (k, v) :: t else kv :: mapSet t k v

/-- The mutable fields of `GpuOrderSectorsByVisibilityCoverage` that the
model-management claims are about: the running id offset, the container
map and the render-target size fixed at construction. -/
structure CoverageState where
  sectorIdOffset : ℕ
  containers : List (String × SectorContainer)
  renderTargetWidth : ℕ
  renderTargetHeight : ℕ

/-- `addModel(model)`: allocates the id range
`[sectorIdOffset, sectorIdOffset + sectors.length)`, builds the proxy
mesh, stores the container and bumps the running offset. -/
def addModel (st : CoverageState) (model : CadModelMetadata) : CoverageState :=
  let sectors := model.sectors
  let mesh := createSectorTreeMesh st.sectorIdOffset sectors model.modelMatrix
  { st with
    containers := mapSet st.containers model.blobUrl
      ⟨model, sectors, st.sectorIdOffset, mesh⟩
    sectorIdOffset := st.sectorIdOffset + sectors.length }

/-- `updateModel(container, model)`: copies the model matrix into the
renderable group; nothing else of the container changes. -/
def updateModel (container : SectorContainer) (model : CadModelMetadata) :
    SectorContainer :=
  { container with
    renderable := { container.renderable with matrix := model.modelMatrix } }

/-- `removeModel(modelIdentifier)`: drops the container (and its
renderable) for the given key. -/
def removeModel (st : CoverageState) (modelIdentifier : String) :
    CoverageState :=
  { st with
    containers := st.containers.filter (fun kv => !(kv.1 = modelIdentifier)) }

/-- The loop body of `setModels`: update a tracked model in place
(`updateModel`), add a fresh one (`addModel`). -/
def processModel (s : CoverageState) (model : CadModelMetadata) :
    CoverageState :=
  match mapGet s.containers model.blobUrl with
  | some container =>
      { s with containers :=
          mapSet s.containers model.blobUrl (updateModel container model) }
  | none => addModel s model

/-- `setModels(models)`: updates tracked models in place, adds fresh ones,
then removes every tracked model whose key is absent from the input (the
`discardIdentifiers` loop of iterated `removeModel` calls deletes exactly
the keys outside `keepModelIdentifiers`, i.e. filters the container map
down to the kept keys, preserving order). -/
def setModels (st : CoverageState) (models : List CadModelMetadata) :
    CoverageState :=
  let keepModelIdentifiers := models.map (fun m => m.blobUrl)
  let st1 := models.foldl processModel st
  { st1 with
    containers := st1.containers.filter
      (fun kv => keepModelIdentifiers.contains kv.1) }

/-- `findSectorContainer(sectorIdWithOffset)`: first container whose id
range contains the id; the source throws
`Sector ID ... is out of range` when none does, modelled as `none`. -/
def findSectorContainer (st : CoverageState) (sectorIdWithOffset : ℕ) :
    Option SectorContainer :=
  (st.containers.find? (fun kv =>
    decide (kv.2.sectorIdOffset ≤ sectorIdWithOffset ∧
      sectorIdWithOffset < kv.2.sectorIdOffset + kv.2.sectors.length))).map
    (fun kv => kv.2)

/-- Id resolution as performed in step 5 of `orderSectorsByVisibility`:
the owning model together with `sectorIdWithOffset - container.sectorIdOffset`. -/
def resolveSector (st : CoverageState) (sectorIdWithOffset : ℕ) :
    Option (CadModelMetadata × ℕ) :=
  (findSectorContainer st sectorIdWithOffset).map
    (fun c => (c.model, sectorIdWithOffset - c.sectorIdOffset))

/-- `SectorVisibility` entry of the accumulator buffer. -/
structure SectorVisibility where
  sectorIdWithOffset : ℕ
  weight : ℝ
  distance : ℕ

/-- The sparse JS array `buffers.sectorVisibilityBuffer`, indexed by
global sector id; `none` is a hole. -/
def VisibilityBuffer := List (Option SectorVisibility)

/-- Read index `i` of the sparse array (reads past the end give a hole). -/
def getIdx (vb : List (Option SectorVisibility)) (i : ℕ) :
    Option SectorVisibility :=
  vb.getD i none

/-- Assign index `i` of the sparse array, extending it with holes when `i`
is past the end (JS `arr[i] = v`). -/
def setIdx : List (Option SectorVisibility) → ℕ → SectorVisibility →
    List (Option SectorVisibility)
  | [], 0, v => [some v]
  | [], n + 1, v => none :: setIdx [] n v
  | _ :: t, 0, v => some v :: t
  | h :: t, n + 1, v => h :: setIdx t n v

/-- Read one byte of the read-back `Uint8Array` (out-of-range reads do not
occur: `prepareBuffers` guarantees the buffer covers the render target). -/
def byteAt (pixels : List ℕ) (i : ℕ) : ℕ :=
  pixels.getD i 0

/-- Scan order of `unpackSectorVisibility`: rows `y` outer, columns `x`
inner. -/
def pixelCoords (w h : ℕ) : List (ℕ × ℕ) :=
  (List.range h).flatMap (fun y => (List.range w).map (fun x => (x, y)))

/-- The weight function of `unpackSectorVisibility`:
`0.5 * (2.5 - s) + Math.exp(-Math.sqrt(s))` with `s = x*x + y*y`. -/
noncomputable def weight (x y : ℝ) : ℝ :=
  let s := x * x + y * y
  0.5 * (2.5 - s) + Real.exp (-Real.sqrt s)

/-- One iteration of the pixel scan of `unpackSectorVisibility` at `(x, y)`:
reads the RGBA bytes at `i = x + w * y`; background pixels
(`r = g = b = 255`) contribute nothing; otherwise the decoded id is
`b + g * 255 + r * 255 * 255`, the entry's weight grows by
`weight rx ry` and its distance is min-folded with the alpha byte.
Note that the source computes `rx` from the row index `y`
(`const rx = (y - halfWidth) / halfWidth`), not from the column `x`. -/
noncomputable def unpackStep (w h : ℕ) (pixels : List ℕ)
    (vb : List (Option SectorVisibility)) (xy : ℕ × ℕ) :
    List (Option SectorVisibility) :=
  let x := xy.1
  let y := xy.2
  let halfHeight : ℝ := (h : ℝ) / 2
  let halfWidth : ℝ := (w : ℝ) / 2
  let ry : ℝ := ((y : ℝ) - (h : ℝ) / 2) / halfHeight
  let i := x + w * y
  let r := byteAt pixels (4 * i)
  let g := byteAt pixels (4 * i + 1)
  let b := byteAt pixels (4 * i + 2)
  let distance := byteAt pixels (4 * i + 3)
  if r ≠ 255 ∨ g ≠ 255 ∨ b ≠ 255 then
    let rx : ℝ := ((y : ℝ) - halfWidth) / halfWidth
    let sectorIdWithOffset := b + g * 255 + r * 255 * 255
    let value := (getIdx vb sectorIdWithOffset).getD
      ⟨sectorIdWithOffset, 0, distance⟩
    let value' : SectorVisibility :=
      { value with
        weight := value.weight + weight rx ry
        distance := Nat.min value.distance distance }
    setIdx vb sectorIdWithOffset value'
  else vb

/-- `unpackSectorVisibility(renderTargetWidth, renderTargetHeight,
renderTargetBuffer)`: the full pixel scan, accumulating into (and
returning) the persistent `sectorVisibilityBuffer`. -/
noncomputable def unpackSectorVisibility (w h : ℕ) (pixels : List ℕ)
    (vb : List (Option SectorVisibility)) :
    List (Option SectorVisibility) :=
  (pixelCoords w h).foldl (unpackStep w h pixels) vb

/-- The `buffers` record of the class: the allocated length of `rtBuffer`
and the persistent `sectorVisibilityBuffer`. -/
structure Buffers where
  rtBufferLen : ℕ
  sectorVisibilityBuffer : List (Option SectorVisibility)

/-- `prepareBuffers()`: grows `rtBuffer` when too small for the render
target (never shrinks) and zeroes the `weight` of every existing entry of
`sectorVisibilityBuffer` — the `distance` field is left untouched. -/
def prepareBuffers (st : CoverageState) (bufs : Buffers) : Buffers :=
  let needed := 4 * st.renderTargetWidth * st.renderTargetHeight
  { rtBufferLen := if bufs.rtBufferLen < needed then needed else bufs.rtBufferLen
    sectorVisibilityBuffer := bufs.sectorVisibilityBuffer.map
      (Option.map (fun e => { e with weight := 0 })) }

/-- `PrioritizedSectorIdentifier` returned from `orderSectorsByVisibility`
(the source also attaches the minimum depth as `depth`). -/
structure PrioritizedSectorIdentifier where
  model : CadModelMetadata
  sectorId : ℕ
  priority : ℝ
  depth : ℕ

/-- `sectorVisibility.filter(x => x.weight > 0)`. -/
noncomputable def filterPositive : List SectorVisibility → List SectorVisibility
  | [] => []
  | e :: t => if 0 < e.weight then e :: filterPositive t else filterPositive t

/-- Insert into a list sorted by strictly greater weight first; models one
step of the descending sort `(left, right) => right.weight - left.weight`. -/
noncomputable def insertByWeightDesc (e : SectorVisibility) :
    List SectorVisibility → List SectorVisibility
  | [] => [e]
  | f :: t => if f.weight < e.weight then e :: f :: t else f :: insertByWeightDesc e t

/-- `.sort((left, right) => right.weight - left.weight)`: descending by
weight (the claims under verification are insensitive to tie order). -/
noncomputable def sortByWeightDesc : List SectorVisibility → List SectorVisibility
  | [] => []
  | e :: t => insertByWeightDesc e (sortByWeightDesc t)

/-- Step 5 of `orderSectorsByVisibility`: map every surviving entry to a
`PrioritizedSectorIdentifier` through `findSectorContainer`; an
unresolvable id throws `Sector ID ... is out of range`, aborting the call. -/
noncomputable def resolveAll (st : CoverageState) (totalWeight : ℝ) :
    List SectorVisibility → Except String (List PrioritizedSectorIdentifier)
  | [] => Except.ok []
  | x :: t =>
    match findSectorContainer st x.sectorIdWithOffset with
    | none => Except.error
        ("Sector ID " ++ toString x.sectorIdWithOffset ++ " is out of range")
    | some container =>
      match resolveAll st totalWeight t with
      | Except.error msg => Except.error msg
      | Except.ok rest => Except.ok
          ({ model := container.model
             sectorId := x.sectorIdWithOffset - container.sectorIdOffset
             priority := x.weight / totalWeight
             depth := x.distance } :: rest)

/-- `orderSectorsByVisibility(camera)` after the GPU round trip: the
render pass and `readRenderTargetPixels` are external (three.js/WebGL), so
the read-back pixel buffer is an input.  Steps modelled: (2) prepare
buffers, (4) unpack into the persistent visibility buffer, (5) total
weight over *all* entries, filter positive-weight entries, sort
descending, resolve ids.  Returns the updated persistent buffers and the
result (`Except.error` models the thrown out-of-range error). -/
noncomputable def orderSectorsByVisibility (st : CoverageState)
    (bufs : Buffers) (pixels : List ℕ) :
    Buffers × Except String (List PrioritizedSectorIdentifier) :=
  let bufs' := prepareBuffers st bufs
  let vis := unpackSectorVisibility st.renderTargetWidth
    st.renderTargetHeight pixels bufs'.sectorVisibilityBuffer
  let entries := vis.filterMap id
  let totalWeight := entries.foldl (fun acc x => x.weight + acc) 0
  let result := resolveAll st totalWeight
    (sortByWeightDesc (filterPositive entries))
  (⟨bufs'.rtBufferLen, vis⟩, result)

/-- `dispose()` and `createDebugCanvas()` resource model: the calls to
`.dispose()` that the method body performs, in order.  The method body is
`this._renderer.dispose(); if (this.debugRenderer) this.debugRenderer.dispose();`. -/
inductive DisposeCall where
  | renderer
  | debugRenderer
  | renderTarget
deriving DecidableEq

/-- The sequence of `.dispose()` invocations performed by `dispose()`,
given whether `createDebugCanvas` had created a debug renderer. -/
def dispose (hasDebugRenderer : Bool) : List DisposeCall :=
  [DisposeCall.renderer] ++
    (if hasDebugRenderer then [DisposeCall.debugRenderer] else [])

/-- `true` iff the call returned normally (did not throw). -/
def exceptOk {ε α : Type} : Except ε α → Bool
  | Except.ok _ => true
  | Except.error _ => false

/-- Number of entries of a returned result (`0` when the call threw). -/
def resultLength : Except String (List PrioritizedSectorIdentifier) → ℕ
  | Except.ok l => l.length
  | Except.error _ => 0

/-- Sum of the priorities of a returned result (`0` when the call threw). -/
noncomputable def resultPrioritySum :
    Except String (List PrioritizedSectorIdentifier) → ℝ
  | Except.ok l => (l.map (fun e => e.priority)).sum
  | Except.error _ => 0

/-- Depths of the entries of a returned result. -/
def resultDepths : Except String (List PrioritizedSectorIdentifier) → List ℕ
  | Except.ok l => l.map (fun e => e.depth)
  | Except.error _ => []

/-- Weight stored for global id `i` in a visibility buffer. -/
def entryWeightAt (vb : List (Option SectorVisibility)) (i : ℕ) : Option ℝ :=
  (getIdx vb i).map (fun e => e.weight)

/-- Distance stored for global id `i` in a visibility buffer. -/
def entryDistanceAt (vb : List (Option SectorVisibility)) (i : ℕ) : Option ℕ :=
  (getIdx vb i).map (fun e => e.distance)

/-- `(id, alpha)` decoded from the pixel at `(x, y)`, `none` for the
background sentinel; mirrors the branch of `unpackSectorVisibility`. -/
def decodeId (pixels : List ℕ) (w : ℕ) (xy : ℕ × ℕ) : Option (ℕ × ℕ) :=
  let i := xy.1 + w * xy.2
  let r := byteAt pixels (4 * i)
  let g := byteAt pixels (4 * i + 1)
  let b := byteAt pixels (4 * i + 2)
  let a := byteAt pixels (4 * i + 3)
  if r ≠ 255 ∨ g ≠ 255 ∨ b ≠ 255 then some (b + g * 255 + r * 255 * 255, a)
  else none

/-- Alpha bytes of the non-background pixels of coordinate list `L` that
decode to global id `id`, in scan order. -/
def alphasIn (pixels : List ℕ) (w : ℕ) (L : List (ℕ × ℕ)) (id : ℕ) : List ℕ :=
  L.filterMap (fun xy =>
    match decodeId pixels w xy with
    | some (i, a) => if i = id then some a else none
    | none => none)

/-- Alpha bytes of the non-background pixels of the whole render target
that decode to global id `id`. -/
def matchingAlphas (w h : ℕ) (pixels : List ℕ) (id : ℕ) : List ℕ :=
  alphasIn pixels w (pixelCoords w h) id

/-- Minimum of a list of bytes, folded exactly as the scan folds it
(`Math.min` starting from the first element; `0` only for the unused
empty case). -/
def minAlpha : List ℕ → ℕ
  | [] => 0
  | a :: t => t.foldl Nat.min a

/-- The `rx` value the source computes for a pixel in row `y`
(`(y - halfWidth) / halfWidth` — the row index, divided by half the width). -/
noncomputable def rxAt (w y : ℕ) : ℝ :=
  ((y : ℝ) - (w : ℝ) / 2) / ((w : ℝ) / 2)

/-- The `ry` value the source computes for a pixel in row `y`. -/
noncomputable def ryAt (h y : ℕ) : ℝ :=
  ((y : ℝ) - (h : ℝ) / 2) / ((h : ℝ) / 2)

/-- Shared test fixture: unit bounding box. -/
def boxUnit : Box3 := ⟨⟨-1, -1, -1⟩, ⟨1, 1, 1⟩⟩

/-- Fixture sector with local id 0. -/
def sector0 : SectorMetadata := ⟨0, boxUnit, ⟨1, 2, 3⟩⟩

/-- Fixture sector with local id 1. -/
def sector1 : SectorMetadata := ⟨1, boxUnit, ⟨4, 5, 6⟩⟩

/-- Fixture model matrices. -/
def mat0 : Matrix4 := ⟨0⟩

/-- A second, distinct model matrix. -/
def mat1 : Matrix4 := ⟨1⟩

/-- Fixture model with two sectors. -/
def modelTwoSectors : CadModelMetadata := ⟨"m", mat0, [sector0, sector1]⟩

/-- Fixture model with one sector. -/
def modelOneSector : CadModelMetadata := ⟨"m", mat0, [sector0]⟩

/-- State with a 1×4 render target (taller than wide) tracking one
two-sector model, reached by one `setModels` call on a fresh instance. -/
def stTall : CoverageState := setModels ⟨0, [], 1, 4⟩ [modelTwoSectors]

/-- State with a 1×1 render target tracking one single-sector model. -/
def stOne : CoverageState := setModels ⟨0, [], 1, 1⟩ [modelOneSector]

/-- 1×4 read-back: rows 1 and 3 hit sectors 0 and 1 (alphas 7 and 9),
rows 0 and 2 are background. -/
def pixelsTall : List ℕ :=
  [255, 255, 255, 255, 0, 0, 0, 7, 255, 255, 255, 255, 0, 0, 1, 9]

/-- 1×4 read-back: only row 3 hits (sector 1, alpha 9). -/
def pixelsTallOne : List ℕ :=
  [255, 255, 255, 255, 255, 255, 255, 255, 255, 255, 255, 255, 0, 0, 1, 9]

/-- 2×2 read-back: only the pixel at column 1, row 0 hits (sector 0). -/
def pixelsSquare : List ℕ :=
  [255, 255, 255, 255, 0, 0, 0, 0, 255, 255, 255, 255, 255, 255, 255, 255]

/-- 1×1 read-back hitting sector 0 with alpha 7. -/
def pixelsDepth7 : List ℕ := [0, 0, 0, 7]

/-- 1×1 read-back hitting sector 0 with alpha 200. -/
def pixelsDepth200 : List ℕ := [0, 0, 0, 200]

/-- 1×1 read-back decoding to global id 5 (no tracked range contains 5). -/
def pixelsStray : List ℕ := [0, 0, 5, 3]

/-- Range membership test of `findSectorContainer`:
`sectorIdWithOffset >= offset && sectorIdWithOffset < offset + sectors.length`. -/
def rangeContains (c : SectorContainer) (g : ℕ) : Prop :=
  c.sectorIdOffset ≤ g ∧ g < c.sectorIdOffset + c.sectors.length

/-- Two containers own non-overlapping id ranges. -/
def rangeDisjoint (a b : String × SectorContainer) : Prop :=
  a.2.sectorIdOffset + a.2.sectors.length ≤ b.2.sectorIdOffset ∨
    b.2.sectorIdOffset + b.2.sectors.length ≤ a.2.sectorIdOffset

/-- Every tracked range lies below the running `sectorIdOffset`. -/
def rangeBound (st : CoverageState) : Prop :=
  ∀ kv ∈ st.containers,
    kv.2.sectorIdOffset + kv.2.sectors.length ≤ st.sectorIdOffset

/-- The id ranges of distinct tracked containers never overlap. -/
def rangesDisjoint (st : CoverageState) : Prop :=
  st.containers.Pairwise rangeDisjoint

/-- State invariant of the id-range allocator: all ranges below the
running offset and pairwise disjoint. -/
def RangesInv (st : CoverageState) : Prop :=
  rangeBound st ∧ rangesDisjoint st

/-- The container map holds each key at most once (JS `Map` semantics). -/
def ContainersWF (st : CoverageState) : Prop :=
  (st.containers.map Prod.fst).Nodup

/-- Offsets issued for a list of sector counts starting at running offset
`o`: the cumulative sums, one per registration, in registration order. -/
def cumOffsets (o : ℕ) : List ℕ → List ℕ
  | [] => []
  | n :: t => o :: cumOffsets (o + n) t

/-- Sum of the sector counts of the models of `ms` that are not tracked
in `st` (the models for which `setModels st ms` allocates a fresh range). -/
def sumFreshLengths (st : CoverageState) (ms : List CadModelMetadata) : ℕ :=
  ((ms.filter (fun m => (mapGet st.containers m.blobUrl).isNone)).map
    (fun m => m.sectors.length)).sum

instance (c : SectorContainer) (g : ℕ) : Decidable (rangeContains c g) := by
  unfold rangeContains
  infer_instance

instance (a b : String × SectorContainer) : Decidable (rangeDisjoint a b) := by
  unfold rangeDisjoint
  infer_instance

instance (st : CoverageState) : Decidable (rangeBound st) := by
  unfold rangeBound
  infer_instance

instance (st : CoverageState) : Decidable (rangesDisjoint st) := by
  unfold rangesDisjoint
  infer_instance

instance (st : CoverageState) : Decidable (RangesInv st) := by
  unfold RangesInv
  infer_instance

instance (st : CoverageState) : Decidable (ContainersWF st) := by
  unfold ContainersWF
  infer_instance

/-- Fixture model keyed `"a"` with one sector. -/
def modelA : CadModelMetadata := ⟨"a", mat0, [sector0]⟩

/-- Fixture model keyed `"b"` with one sector. -/
def modelB : CadModelMetadata := ⟨"b", mat0, [sector0]⟩

/-- State tracking `modelA` then `modelB`, reached by one `setModels`
call on a fresh instance with a 64×64 target. -/
def stTwo : CoverageState := setModels ⟨0, [], 64, 64⟩ [modelA, modelB]

/-- The container `setModels` builds for `modelA` (id range `[0, 1)`). -/
def containerA : SectorContainer :=
  ⟨modelA, modelA.sectors, 0,
    createSectorTreeMesh 0 modelA.sectors modelA.modelMatrix⟩

/-- The container `setModels` builds for `modelB` (id range `[1, 2)`). -/
def containerB : SectorContainer :=
  ⟨modelB, modelB.sectors, 1,
    createSectorTreeMesh 1 modelB.sectors modelB.modelMatrix⟩

/-- Distance reported for one sector after a scan: the minimum alpha of
the scan's matching pixels, `Math.min`-folded onto the distance the
(possibly carried-over) entry already held. -/
def carriedMin (prev : Option SectorVisibility) (alphas : List ℕ) : Option ℕ :=
  match prev, alphas with
  | none, [] => none
  | some e, [] => some e.distance
  | none, a :: t => some (minAlpha (a :: t))
  | some e, a :: t => some (Nat.min e.distance (minAlpha (a :: t)))

/-- The container `setModels` builds for `modelTwoSectors` in `stTall`. -/
def containerTall : SectorContainer :=
  ⟨modelTwoSectors, modelTwoSectors.sectors, 0,
    createSectorTreeMesh 0 modelTwoSectors.sectors modelTwoSectors.modelMatrix⟩

/-- The container `setModels` builds for `modelOneSector` in `stOne`. -/
def containerOne : SectorContainer :=
  ⟨modelOneSector, modelOneSector.sectors, 0,
    createSectorTreeMesh 0 modelOneSector.sectors modelOneSector.modelMatrix⟩

/-- Accumulator entry sector 0 receives from `pixelsTall` row 1. -/
noncomputable def entryTall0 : SectorVisibility :=
  ⟨0, 0 + weight (rxAt 1 1) (ryAt 4 1), Nat.min 7 7⟩

/-- Accumulator entry sector 1 receives from `pixelsTall` row 3. -/
noncomputable def entryTall1 : SectorVisibility :=
  ⟨1, 0 + weight (rxAt 1 3) (ryAt 4 3), Nat.min 9 9⟩

/-- Accumulator entry sector 0 receives from the 1×1 buffer `pixelsDepth7`. -/
noncomputable def entryOne7 : SectorVisibility :=
  ⟨0, 0 + weight (rxAt 1 0) (ryAt 1 0), Nat.min 7 7⟩

/-- Accumulator entry global id 5 receives from the 1×1 buffer `pixelsStray`. -/
noncomputable def entryStray : SectorVisibility :=
  ⟨5, 0 + weight (rxAt 1 0) (ryAt 1 0), Nat.min 3 3⟩

/-- Accumulator entry sector 0 receives from the 2×2 buffer `pixelsSquare`
(single hit at column 1, row 0). -/
noncomputable def entrySquare : SectorVisibility :=
  ⟨0, 0 + weight (rxAt 2 0) (ryAt 2 0), Nat.min 0 0⟩

/-! ## Association-list (JS `Map`) lemmas -/

theorem mapGet_nil (k : String) : mapGet [] k = none := rfl

theorem mapGet_cons (kv : String × SectorContainer) (m : List (String × SectorContainer))
    (k : String) :
    mapGet (kv :: m) k = if kv.1 = k then some kv.2 else mapGet m k := by
  by_cases h : kv.1 = k <;> simp [mapGet, List.find?, h]

theorem mem_of_mapGet_eq_some {m : List (String × SectorContainer)} {k : String}
    {c : SectorContainer} (h : mapGet m k = some c) : (k, c) ∈ m := by
  induction m with
  | nil => simp [mapGet] at h
  | cons kv t ih =>
    rw [mapGet_cons] at h
    by_cases hk : kv.1 = k
    · simp [hk] at h
      cases kv with
      | mk k0 v0 =>
        simp at hk h
        subst hk
        subst h
        exact List.mem_cons_self _ _
    · simp [hk] at h
      exact List.mem_cons_of_mem _ (ih h)

theorem mapGet_mapSet_self (m : List (String × SectorContainer)) (k : String)
    (v : SectorContainer) : mapGet (mapSet m k v) k = some v := by
  induction m with
  | nil => simp [mapSet, mapGet_cons]
  | cons kv t ih =>
    by_cases h : kv.1 = k
    · simp [mapSet, h, mapGet_cons]
    · simp [mapSet, h, mapGet_cons, ih]

theorem mapGet_mapSet_ne (m : List (String × SectorContainer)) (k k' : String)
    (v : SectorContainer) (h : k' ≠ k) :
    mapGet (mapSet m k v) k' = mapGet m k' := by
  induction m with
  | nil =>
    simp [mapSet, mapGet_cons, mapGet_nil]
    exact fun hh => absurd hh.symm h
  | cons kv t ih =>
    by_cases hk : kv.1 = k
    · subst hk
      have hne : ¬ kv.1 = k' := fun hh => h (hh.symm)
      simp [mapSet, mapGet_cons, hne]
    · simp [mapSet, hk, mapGet_cons, ih]

theorem mapSet_eq_append {m : List (String × SectorContainer)} {k : String}
    (v : SectorContainer) (h : mapGet m k = none) :
    mapSet m k v = m ++ [(k, v)] := by
  induction m with
  | nil => rfl
  | cons kv t ih =>
    rw [mapGet_cons] at h
    by_cases hk : kv.1 = k
    · simp [hk] at h
    · simp [mapSet, hk]
      exact ih (by simpa [hk] using h)

/-- Filtering by a predicate on keys commutes with lookup of a kept key. -/
theorem mapGet_filter_key (m : List (String × SectorContainer)) (k : String)
    (p : String → Bool) (hp : p k = true) :
    mapGet (m.filter (fun kv => p kv.1)) k = mapGet m k := by
  induction m with
  | nil => rfl
  | cons kv t ih =>
    by_cases hk : kv.1 = k
    · subst hk
      simp [List.filter, hp, mapGet_cons]
    · by_cases hpk : p kv.1 <;>
        simp [List.filter, hpk, mapGet_cons, hk, ih]

/-! ## Claim C9: what `dispose()` releases -/

/-- Counterexample to claim C9: `dispose()` never invokes dispose on the
render target, with or without a debug surface; the claim that the render
target is released exactly once is false of the method body. -/
theorem c9_render_target_not_disposed :
    DisposeCall.renderTarget ∉ dispose true ∧
      DisposeCall.renderTarget ∉ dispose false := by
  constructor <;> simp [dispose]

/-- Claim C9 (amended): `dispose()` disposes the internal renderer exactly
once, the debug renderer exactly once when one was created (never
otherwise), and never invokes dispose on the render target. -/
theorem c9_dispose_calls (hasDebugRenderer : Bool) :
    (dispose hasDebugRenderer).count DisposeCall.renderer = 1 ∧
      (dispose hasDebugRenderer).count DisposeCall.debugRenderer =
        (if hasDebugRenderer then 1 else 0) ∧
      (dispose hasDebugRenderer).count DisposeCall.renderTarget = 0 := by
  cases hasDebugRenderer <;> simp [dispose]

/-! ## Claim C6: id resolution -/

/-- With pairwise-disjoint ranges, `find?` returns exactly the member
container whose range contains `g`. -/
theorem find_first_in_range {l : List (String × SectorContainer)}
    (hp : l.Pairwise rangeDisjoint) {k : String} {c : SectorContainer}
    (hmem : (k, c) ∈ l) {g : ℕ} (hg : rangeContains c g) :
    (l.find? (fun kv => decide (kv.2.sectorIdOffset ≤ g ∧
        g < kv.2.sectorIdOffset + kv.2.sectors.length))).map
      (fun kv => kv.2) = some c := by
  induction l with
  | nil => cases hmem
  | cons kv t ih =>
    rcases List.pairwise_cons.mp hp with ⟨hhead, htail⟩
    rcases List.mem_cons.mp hmem with heq | hmemt
    · subst heq
      rw [List.find?_cons_of_pos]
      · simp
      · exact decide_eq_true hg
    · by_cases hpred : kv.2.sectorIdOffset ≤ g ∧
          g < kv.2.sectorIdOffset + kv.2.sectors.length
      · exfalso
        have hdis : kv.2.sectorIdOffset + kv.2.sectors.length ≤
              c.sectorIdOffset ∨
            c.sectorIdOffset + c.sectors.length ≤ kv.2.sectorIdOffset :=
          hhead _ hmemt
        rcases hg with ⟨hg1, hg2⟩
        rcases hpred with ⟨hp1, hp2⟩
        rcases hdis with h1 | h2 <;> omega
      · rw [List.find?_cons_of_neg]
        · exact ih htail hmemt
        · simpa using hpred

/-- Claim C6: for every tracked model with id offset `o` and `n` sectors
(disjoint ranges being the allocator's invariant), every global id `g`
with `o ≤ g < o + n` resolves during `orderSectorsByVisibility` to that
model and local sector id `g - o`; in particular ids in a later model's
range resolve across model-range boundaries to the owning model. -/
theorem c6_resolve_in_range (st : CoverageState) (hdisj : rangesDisjoint st)
    (k : String) (c : SectorContainer) (hmem : (k, c) ∈ st.containers)
    (g : ℕ) (hg : rangeContains c g) :
    resolveSector st g = some (c.model, g - c.sectorIdOffset) := by
  have hfind : findSectorContainer st g = some c := by
    unfold findSectorContainer
    exact find_first_in_range hdisj hmem hg
  simp [resolveSector, hfind]

/-- Witness for C6: in the concrete two-model state, global id 1 lies in
the second model's range `[1, 2)` and resolves to `modelB` with local
sector id 0. -/
theorem c6_resolve_in_range_witness :
    rangeContains containerB 1 ∧ rangesDisjoint stTwo ∧
      resolveSector stTwo 1 = some (modelB, 0) := by
  refine ⟨by decide, by decide, ?_⟩
  have hcont : stTwo.containers = [("a", containerA), ("b", containerB)] := rfl
  exact c6_resolve_in_range stTwo (by decide) "b" containerB
    (by rw [hcont]; exact List.mem_cons_of_mem _ (List.mem_cons_self _ _))
    1 (by decide)

/-! ## Claim C5: id-range allocation -/

theorem mapGet_eq_none_iff {m : List (String × SectorContainer)} {k : String} :
    mapGet m k = none ↔ k ∉ m.map Prod.fst := by
  induction m with
  | nil => simp [mapGet]
  | cons kv t ih =>
    rw [mapGet_cons, List.map_cons]
    by_cases h : kv.1 = k
    · simp [h]
    · simp only [h, if_false, List.mem_cons, ih]
      constructor
      · intro hk hor
        rcases hor with h1 | h2
        · exact h h1.symm
        · exact hk h2
      · intro hk
        exact fun h2 => hk (Or.inr h2)

theorem mapGet_eq_some_of_mem {m : List (String × SectorContainer)}
    {k : String} {c : SectorContainer} (hnd : (m.map Prod.fst).Nodup)
    (hm : (k, c) ∈ m) : mapGet m k = some c := by
  induction m with
  | nil => cases hm
  | cons kv t ih =>
    rw [List.map_cons, List.nodup_cons] at hnd
    rcases List.mem_cons.mp hm with heq | hmt
    · subst heq
      rw [mapGet_cons]
      simp
    · have hk : kv.1 ≠ k := by
        intro hh
        exact hnd.1 (hh ▸ (List.mem_map.mpr ⟨(k, c), hmt, rfl⟩))
      rw [mapGet_cons]
      simp [hk]
      exact ih hnd.2 hmt

theorem mapGet_filter_some {m : List (String × SectorContainer)}
    {p : String × SectorContainer → Bool} {k : String} {c : SectorContainer}
    (hnd : (m.map Prod.fst).Nodup) (h : mapGet (m.filter p) k = some c) :
    mapGet m k = some c := by
  have hmem : (k, c) ∈ m.filter p := mem_of_mapGet_eq_some h
  exact mapGet_eq_some_of_mem hnd (List.mem_of_mem_filter hmem)

theorem mem_mapSet {m : List (String × SectorContainer)} {k : String}
    {v : SectorContainer} {b : String × SectorContainer}
    (hb : b ∈ mapSet m k v) : b ∈ m ∨ b = (k, v) := by
  induction m with
  | nil => simpa [mapSet] using hb
  | cons kv t ih =>
    by_cases h : kv.1 = k
    · simp [mapSet, h] at hb
      rcases hb with hb | hb
      · right
        exact hb
      · left
        exact List.mem_cons_of_mem _ hb
    · simp [mapSet, h] at hb
      rcases hb with hb | hb
      · left
        simp [hb]
      · rcases ih hb with hb' | hb'
        · left
          exact List.mem_cons_of_mem _ hb'
        · right
          exact hb'

theorem keys_mapSet_present {m : List (String × SectorContainer)} {k : String}
    {c : SectorContainer} (hget : mapGet m k = some c) (v : SectorContainer) :
    (mapSet m k v).map Prod.fst = m.map Prod.fst := by
  induction m with
  | nil => simp [mapGet] at hget
  | cons kv t ih =>
    rw [mapGet_cons] at hget
    by_cases h : kv.1 = k
    · simp [mapSet, h]
    · simp [mapSet, h]
      exact ih (by simpa [h] using hget)

theorem updateModel_sectorIdOffset (c : SectorContainer) (m : CadModelMetadata) :
    (updateModel c m).sectorIdOffset = c.sectorIdOffset := rfl

theorem updateModel_sectors (c : SectorContainer) (m : CadModelMetadata) :
    (updateModel c m).sectors = c.sectors := rfl

/-- Replacing the value stored at a present key by one with the same id
range keeps the ranges pairwise disjoint. -/
theorem pairwise_mapSet_same_range {m : List (String × SectorContainer)}
    {k : String} {c v : SectorContainer} (hget : mapGet m k = some c)
    (hoff : v.sectorIdOffset = c.sectorIdOffset) (hsec : v.sectors = c.sectors)
    (hp : m.Pairwise rangeDisjoint) : (mapSet m k v).Pairwise rangeDisjoint := by
  induction m with
  | nil => simp [mapGet] at hget
  | cons kv t ih =>
    rw [mapGet_cons] at hget
    rcases List.pairwise_cons.mp hp with ⟨hhead, htail⟩
    by_cases h : kv.1 = k
    · simp only [h, if_pos] at hget
      simp only [mapSet, h, if_pos]
      refine List.pairwise_cons.mpr ⟨?_, htail⟩
      intro b hb
      have := hhead b hb
      unfold rangeDisjoint at this ⊢
      rw [hoff, hsec]
      simpa [Option.some_inj.mp hget] using this
    · simp only [h, if_neg, if_false] at hget
      simp only [mapSet, h, if_neg, if_false]
      refine List.pairwise_cons.mpr ⟨?_, ih hget htail⟩
      intro b hb
      rcases mem_mapSet hb with hb' | hb'
      · exact hhead b hb'
      · subst hb'
        have hc : (k, c) ∈ t := mem_of_mapGet_eq_some hget
        have := hhead _ hc
        unfold rangeDisjoint at this ⊢
        rw [hoff, hsec]
        exact this

/-- Same-range replacement keeps every range below the running offset. -/
theorem bound_mapSet_same_range {m : List (String × SectorContainer)}
    {k : String} {c v : SectorContainer} {o : ℕ} (hget : mapGet m k = some c)
    (hoff : v.sectorIdOffset = c.sectorIdOffset) (hsec : v.sectors = c.sectors)
    (hb : ∀ kv ∈ m, kv.2.sectorIdOffset + kv.2.sectors.length ≤ o) :
    ∀ kv ∈ mapSet m k v, kv.2.sectorIdOffset + kv.2.sectors.length ≤ o := by
  intro kv hkv
  rcases mem_mapSet hkv with h | h
  · exact hb kv h
  · subst h
    have hc : (k, c) ∈ m := mem_of_mapGet_eq_some hget
    have := hb _ hc
    simpa [hoff, hsec] using this

/-- Equation: `processModel` on a tracked key updates in place. -/
theorem processModel_eq_update (s : CoverageState) (m : CadModelMetadata)
    (c : SectorContainer) (h : mapGet s.containers m.blobUrl = some c) :
    processModel s m =
      { s with containers :=
          mapSet s.containers m.blobUrl (updateModel c m) } := by
  unfold processModel
  rw [h]

/-- Equation: `processModel` on a fresh key adds the model. -/
theorem processModel_eq_add (s : CoverageState) (m : CadModelMetadata)
    (h : mapGet s.containers m.blobUrl = none) :
    processModel s m = addModel s m := by
  unfold processModel
  rw [h]

/-- `processModel` preserves the id-range invariant. -/
theorem processModel_inv (s : CoverageState) (m : CadModelMetadata)
    (h : RangesInv s) : RangesInv (processModel s m) := by
  rcases h with ⟨hb, hp⟩
  cases hget : mapGet s.containers m.blobUrl with
  | some c =>
    rw [processModel_eq_update s m c hget]
    refine ⟨?_, ?_⟩
    · exact bound_mapSet_same_range hget
        (updateModel_sectorIdOffset c m) (updateModel_sectors c m) hb
    · exact pairwise_mapSet_same_range hget
        (updateModel_sectorIdOffset c m) (updateModel_sectors c m) hp
  | none =>
    rw [processModel_eq_add s m hget]
    unfold addModel
    dsimp only
    rw [mapSet_eq_append _ hget]
    constructor
    · intro kv hkv
      rcases List.mem_append.mp hkv with h | h
      · have := hb kv h
        simp only []
        omega
      · simp at h
        subst h
        simp
    · unfold rangesDisjoint
      dsimp only
      rw [List.pairwise_append]
      refine ⟨hp, List.pairwise_singleton _ _, ?_⟩
      intro a ha b hbmem
      simp at hbmem
      subst hbmem
      left
      exact hb a ha

theorem processModel_wf (s : CoverageState) (m : CadModelMetadata)
    (h : ContainersWF s) : ContainersWF (processModel s m) := by
  unfold ContainersWF at h ⊢
  cases hget : mapGet s.containers m.blobUrl with
  | some c =>
    rw [processModel_eq_update s m c hget]
    simpa [keys_mapSet_present hget] using h
  | none =>
    rw [processModel_eq_add s m hget]
    unfold addModel
    dsimp only
    rw [mapSet_eq_append _ hget]
    simp only [List.map_append, List.map_cons, List.map_nil]
    rw [List.nodup_append]
    refine ⟨h, List.nodup_singleton _, ?_⟩
    intro a ha hb
    simp at hb
    subst hb
    exact (mapGet_eq_none_iff.mp hget) ha

theorem processModel_offset_mono (s : CoverageState) (m : CadModelMetadata) :
    s.sectorIdOffset ≤ (processModel s m).sectorIdOffset := by
  cases hget : mapGet s.containers m.blobUrl with
  | some c =>
    rw [processModel_eq_update s m c hget]
  | none =>
    rw [processModel_eq_add s m hget]
    unfold addModel
    simp

theorem foldModels_inv (ms : List CadModelMetadata) (s : CoverageState)
    (h : RangesInv s) : RangesInv (ms.foldl processModel s) := by
  induction ms generalizing s with
  | nil => exact h
  | cons m rest ih => exact ih _ (processModel_inv s m h)

theorem foldModels_wf (ms : List CadModelMetadata) (s : CoverageState)
    (h : ContainersWF s) : ContainersWF (ms.foldl processModel s) := by
  induction ms generalizing s with
  | nil => exact h
  | cons m rest ih => exact ih _ (processModel_wf s m h)

theorem foldModels_offset_mono (ms : List CadModelMetadata) (s : CoverageState) :
    s.sectorIdOffset ≤ (ms.foldl processModel s).sectorIdOffset := by
  induction ms generalizing s with
  | nil => exact le_refl _
  | cons m rest ih =>
    exact le_trans (processModel_offset_mono s m) (ih _)

theorem processModel_mapGet_ne (s : CoverageState) (m : CadModelMetadata)
    (k : String) (h : m.blobUrl ≠ k) :
    mapGet (processModel s m).containers k = mapGet s.containers k := by
  cases hget : mapGet s.containers m.blobUrl with
  | some c =>
    rw [processModel_eq_update s m c hget]
    exact mapGet_mapSet_ne _ _ _ _ (Ne.symm h)
  | none =>
    rw [processModel_eq_add s m hget]
    unfold addModel
    dsimp only
    exact mapGet_mapSet_ne _ _ _ _ (Ne.symm h)

theorem foldModels_mapGet_not_touched (ms : List CadModelMetadata)
    (s : CoverageState) (k : String) (h : ∀ m ∈ ms, m.blobUrl ≠ k) :
    mapGet (ms.foldl processModel s).containers k = mapGet s.containers k := by
  induction ms generalizing s with
  | nil => rfl
  | cons m rest ih =>
    rw [List.foldl_cons, ih _ (fun m' hm' => h m' (List.mem_cons_of_mem _ hm'))]
    exact processModel_mapGet_ne s m k (h m (List.mem_cons_self _ _))

theorem processModel_origin (s : CoverageState) (m : CadModelMetadata)
    (k : String) (c : SectorContainer)
    (h : mapGet (processModel s m).containers k = some c) :
    (∃ c₀, mapGet s.containers k = some c₀ ∧
        c.sectorIdOffset = c₀.sectorIdOffset ∧ c.sectors = c₀.sectors) ∨
      s.sectorIdOffset ≤ c.sectorIdOffset := by
  by_cases hk : m.blobUrl = k
  · subst hk
    cases hget : mapGet s.containers m.blobUrl with
    | some c₀ =>
      rw [processModel_eq_update s m c₀ hget, mapGet_mapSet_self] at h
      left
      refine ⟨c₀, hget ▸ rfl, ?_, ?_⟩
      · rw [← Option.some_inj.mp h]
        rfl
      · rw [← Option.some_inj.mp h]
        rfl
    | none =>
      rw [processModel_eq_add s m hget] at h
      unfold addModel at h
      dsimp only at h
      rw [mapGet_mapSet_self] at h
      right
      rw [← Option.some_inj.mp h]
  · rw [processModel_mapGet_ne s m k hk] at h
    left
    exact ⟨c, h, rfl, rfl⟩

theorem foldModels_origin (ms : List CadModelMetadata) (s : CoverageState)
    (k : String) (c : SectorContainer)
    (h : mapGet (ms.foldl processModel s).containers k = some c) :
    (∃ c₀, mapGet s.containers k = some c₀ ∧
        c.sectorIdOffset = c₀.sectorIdOffset ∧ c.sectors = c₀.sectors) ∨
      s.sectorIdOffset ≤ c.sectorIdOffset := by
  induction ms generalizing s with
  | nil => exact Or.inl ⟨c, h, rfl, rfl⟩
  | cons m rest ih =>
    rw [List.foldl_cons] at h
    rcases ih (processModel s m) h with ⟨c₀, hc₀, hoff, hsec⟩ | hge
    · rcases processModel_origin s m k c₀ hc₀ with ⟨c₁, hc₁, hoff', hsec'⟩ | hge'
      · exact Or.inl ⟨c₁, hc₁, hoff.trans hoff', hsec.trans hsec'⟩
      · right
        omega
    · right
      exact le_trans (processModel_offset_mono s m) hge

theorem sumFreshLengths_nil (st : CoverageState) : sumFreshLengths st [] = 0 := rfl

theorem sumFreshLengths_cons (st : CoverageState) (m : CadModelMetadata)
    (ms : List CadModelMetadata) :
    sumFreshLengths st (m :: ms) =
      (if (mapGet st.containers m.blobUrl).isNone then m.sectors.length else 0)
        + sumFreshLengths st ms := by
  unfold sumFreshLengths
  by_cases h : (mapGet st.containers m.blobUrl).isNone
  · simp [List.filter_cons, h]
  · simp [List.filter_cons, h]

/-- The freshness of a model is decided against the original state: keys
other than its own are untouched by `processModel`. -/
theorem sumFreshLengths_congr (s s' : CoverageState)
    (ms : List CadModelMetadata)
    (h : ∀ m ∈ ms, mapGet s'.containers m.blobUrl = mapGet s.containers m.blobUrl) :
    sumFreshLengths s' ms = sumFreshLengths s ms := by
  induction ms with
  | nil => rfl
  | cons m rest ih =>
    rw [sumFreshLengths_cons, sumFreshLengths_cons,
      h m (List.mem_cons_self _ _),
      ih (fun m' hm' => h m' (List.mem_cons_of_mem _ hm'))]

/-- Offset arithmetic of the `setModels` loop: the running offset grows by
exactly the total sector count of the models that were not yet tracked. -/
theorem foldModels_offset (ms : List CadModelMetadata) (s : CoverageState)
    (hnd : (ms.map (fun m => m.blobUrl)).Nodup) :
    (ms.foldl processModel s).sectorIdOffset =
      s.sectorIdOffset + sumFreshLengths s ms := by
  induction ms generalizing s with
  | nil => simp [sumFreshLengths_nil]
  | cons m rest ih =>
    rw [List.map_cons, List.nodup_cons] at hnd
    have hcongr : sumFreshLengths (processModel s m) rest = sumFreshLengths s rest := by
      apply sumFreshLengths_congr
      intro m' hm'
      apply processModel_mapGet_ne
      intro hh
      exact hnd.1 (hh ▸ List.mem_map.mpr ⟨m', hm', rfl⟩)
    rw [List.foldl_cons, ih _ hnd.2, hcongr, sumFreshLengths_cons]
    cases hget : mapGet s.containers m.blobUrl with
    | some c =>
      rw [processModel_eq_update s m c hget]
      simp [hget]
    | none =>
      rw [processModel_eq_add s m hget]
      unfold addModel
      dsimp only
      simp [hget]
      omega

/-- Offsets assigned to a batch of entirely fresh models: the cumulative
sector counts, in registration order. -/
theorem foldModels_fresh_offsets (ms : List CadModelMetadata)
    (s : CoverageState)
    (hfresh : ∀ m ∈ ms, mapGet s.containers m.blobUrl = none)
    (hnd : (ms.map (fun m => m.blobUrl)).Nodup) :
    ms.map (fun m => (mapGet (ms.foldl processModel s).containers m.blobUrl).map
        (fun c => c.sectorIdOffset)) =
      (cumOffsets s.sectorIdOffset (ms.map (fun m => m.sectors.length))).map some := by
  induction ms generalizing s with
  | nil => rfl
  | cons m rest ih =>
    rw [List.map_cons, List.nodup_cons] at hnd
    have hget : mapGet s.containers m.blobUrl = none :=
      hfresh m (List.mem_cons_self _ _)
    have hne : ∀ m' ∈ rest, m'.blobUrl ≠ m.blobUrl := by
      intro m' hm' hh
      exact hnd.1 (hh ▸ List.mem_map.mpr ⟨m', hm', rfl⟩)
    have hhead : mapGet ((m :: rest).foldl processModel s).containers m.blobUrl =
        some ⟨m, m.sectors, s.sectorIdOffset,
          createSectorTreeMesh s.sectorIdOffset m.sectors m.modelMatrix⟩ := by
      rw [List.foldl_cons, foldModels_mapGet_not_touched rest _ _ hne,
        processModel_eq_add s m hget]
      unfold addModel
      dsimp only
      exact mapGet_mapSet_self _ _ _
    have hfresh' : ∀ m' ∈ rest, mapGet (processModel s m).containers m'.blobUrl = none := by
      intro m' hm'
      rw [processModel_mapGet_ne s m _ (fun hh => hne m' hm' hh.symm)]
      exact hfresh m' (List.mem_cons_of_mem _ hm')
    have hoff : (processModel s m).sectorIdOffset = s.sectorIdOffset + m.sectors.length := by
      rw [processModel_eq_add s m hget]
      unfold addModel
      dsimp only
    rw [List.map_cons, hhead, List.map_cons, cumOffsets, List.map_cons]
    congr 1
    have := ih (processModel s m) hfresh' hnd.2
    rw [← hoff]
    convert this using 2

theorem filter_containers_inv (st : CoverageState)
    (p : String × SectorContainer → Bool) (h : RangesInv st) :
    RangesInv { st with containers := st.containers.filter p } := by
  rcases h with ⟨hb, hp⟩
  constructor
  · intro kv hkv
    exact hb kv (List.mem_of_mem_filter hkv)
  · exact hp.sublist (List.filter_sublist _)

theorem filter_containers_wf (st : CoverageState)
    (p : String × SectorContainer → Bool) (h : ContainersWF st) :
    ContainersWF { st with containers := st.containers.filter p } := by
  exact h.sublist ((List.filter_sublist _).map _)

theorem setModels_eq_filtered (st : CoverageState) (ms : List CadModelMetadata) :
    setModels st ms =
      { ms.foldl processModel st with
        containers := (ms.foldl processModel st).containers.filter
          (fun kv => (ms.map (fun m => m.blobUrl)).contains kv.1) } := rfl

theorem cumOffsets_chain (o : ℕ) (ns : List ℕ) (h : ∀ n ∈ ns, n ≠ 0) :
    List.Chain' (fun a b : ℕ => a < b) (cumOffsets o ns) := by
  induction ns generalizing o with
  | nil => simp [cumOffsets]
  | cons n t ih =>
    rw [cumOffsets]
    cases t with
    | nil => simp [cumOffsets]
    | cons n' t' =>
      rw [cumOffsets]
      refine List.chain'_cons.mpr ⟨?_, ?_⟩
      · have : n ≠ 0 := h n (List.mem_cons_self _ _)
        omega
      · have := ih (o + n) (fun x hx => h x (List.mem_cons_of_mem _ hx))
        rw [cumOffsets] at this
        exact this

/-- Claim C5: across any `setModels` call on a state satisfying the
allocator invariants, (1) the invariants are preserved — in particular the
id ranges of simultaneously tracked models never overlap; (2) the running
offset never decreases, so a removed model's range (which lies below the
running offset) is never reassigned to a later registration; (3) every
tracked container either predates the call with its offset and sector list
unchanged or was freshly allocated at or above the old running offset;
(4) a batch of fresh registrations receives exactly the cumulative sector
counts as offsets, in registration order; (5) those cumulative offsets are
strictly increasing whenever the sector counts are nonzero. -/
theorem c5_id_ranges_partition (st : CoverageState) (ms : List CadModelMetadata)
    (hinv : RangesInv st) (hwf : ContainersWF st) :
    RangesInv (setModels st ms) ∧
      ContainersWF (setModels st ms) ∧
      st.sectorIdOffset ≤ (setModels st ms).sectorIdOffset ∧
      (∀ k c, mapGet (setModels st ms).containers k = some c →
        (∃ c₀, mapGet st.containers k = some c₀ ∧
          c.sectorIdOffset = c₀.sectorIdOffset ∧ c.sectors = c₀.sectors) ∨
        st.sectorIdOffset ≤ c.sectorIdOffset) ∧
      ((∀ m ∈ ms, mapGet st.containers m.blobUrl = none) →
        (ms.map (fun m => m.blobUrl)).Nodup →
        ms.map (fun m => (mapGet (setModels st ms).containers m.blobUrl).map
            (fun c => c.sectorIdOffset)) =
          (cumOffsets st.sectorIdOffset
            (ms.map (fun m => m.sectors.length))).map some) ∧
      (∀ ns : List ℕ, (∀ n ∈ ns, n ≠ 0) →
        List.Chain' (fun a b : ℕ => a < b) (cumOffsets st.sectorIdOffset ns)) := by
  refine ⟨?_, ?_, ?_, ?_, ?_, ?_⟩
  · rw [setModels_eq_filtered]
    exact filter_containers_inv _ _ (foldModels_inv ms st hinv)
  · rw [setModels_eq_filtered]
    exact filter_containers_wf _ _ (foldModels_wf ms st hwf)
  · rw [setModels_eq_filtered]
    exact foldModels_offset_mono ms st
  · intro k c hc
    rw [setModels_eq_filtered] at hc
    have hfold : mapGet (ms.foldl processModel st).containers k = some c :=
      mapGet_filter_some (foldModels_wf ms st hwf) hc
    exact foldModels_origin ms st k c hfold
  · intro hfresh hnd
    have hcongr : ∀ m ∈ ms,
        mapGet (setModels st ms).containers m.blobUrl =
          mapGet (ms.foldl processModel st).containers m.blobUrl := by
      intro m hm
      rw [setModels_eq_filtered]
      apply mapGet_filter_key
      have : m.blobUrl ∈ ms.map (fun m => m.blobUrl) :=
        List.mem_map.mpr ⟨m, hm, rfl⟩
      exact List.elem_eq_true_of_mem this
    calc ms.map (fun m => (mapGet (setModels st ms).containers m.blobUrl).map
            (fun c => c.sectorIdOffset))
        = ms.map (fun m => (mapGet (ms.foldl processModel st).containers m.blobUrl).map
            (fun c => c.sectorIdOffset)) := by
          apply List.map_congr_left
          intro m hm
          rw [hcongr m hm]
      _ = (cumOffsets st.sectorIdOffset
            (ms.map (fun m => m.sectors.length))).map some :=
          foldModels_fresh_offsets ms st hfresh hnd
  · exact cumOffsets_chain st.sectorIdOffset

/-- Witness for C5: starting from a fresh instance (empty container map,
offset 0) and registering two models of 1 and 1 sectors, the theorem's
hypotheses hold and in particular the assigned offsets are `[0, 1]`. -/
theorem c5_id_ranges_partition_witness :
    RangesInv ⟨0, [], 64, 64⟩ ∧ ContainersWF ⟨0, [], 64, 64⟩ ∧
      RangesInv (setModels ⟨0, [], 64, 64⟩ [modelA, modelB]) := by
  refine ⟨by decide, by decide, ?_⟩
  exact (c5_id_ranges_partition ⟨0, [], 64, 64⟩ [modelA, modelB]
    (by decide) (by decide)).1

/-! ## Claim C8: updating a tracked model -/

theorem foldModels_update_tracked (ms : List CadModelMetadata)
    (s : CoverageState) (m : CadModelMetadata) (c : SectorContainer)
    (hm : m ∈ ms) (hnd : (ms.map (fun m => m.blobUrl)).Nodup)
    (hc : mapGet s.containers m.blobUrl = some c) :
    mapGet (ms.foldl processModel s).containers m.blobUrl =
      some (updateModel c m) := by
  induction ms generalizing s with
  | nil => cases hm
  | cons m' rest ih =>
    rw [List.map_cons, List.nodup_cons] at hnd
    rcases List.mem_cons.mp hm with heq | hmem
    · subst heq
      have hne : ∀ m'' ∈ rest, m''.blobUrl ≠ m.blobUrl := fun m'' hm'' hh =>
        hnd.1 (hh ▸ List.mem_map.mpr ⟨m'', hm'', rfl⟩)
      rw [List.foldl_cons, foldModels_mapGet_not_touched rest _ _ hne,
        processModel_eq_update s m c hc]
      exact mapGet_mapSet_self _ _ _
    · have hne : m'.blobUrl ≠ m.blobUrl := fun hh =>
        hnd.1 (hh ▸ List.mem_map.mpr ⟨m, hmem, rfl⟩)
      rw [List.foldl_cons]
      refine ih (processModel s m') hmem hnd.2 ?_
      rw [processModel_mapGet_ne s m' _ hne]
      exact hc

/-- Claim C8: when a `setModels` input contains an already-tracked model
key, only the proxy group's transform is updated for that model: the
container keeps its model record, sector list, id offset and proxy mesh,
only `renderable.matrix` becomes the new model matrix; and the running id
offset grows only by the sector counts of the models that were *not* yet
tracked (no new id range for the tracked key). -/
theorem c8_update_transform_only (st : CoverageState)
    (ms : List CadModelMetadata) (m : CadModelMetadata) (c : SectorContainer)
    (hnd : (ms.map (fun m => m.blobUrl)).Nodup) (hm : m ∈ ms)
    (hc : mapGet st.containers m.blobUrl = some c) :
    mapGet (setModels st ms).containers m.blobUrl =
      some { c with renderable :=
        { c.renderable with matrix := m.modelMatrix } } ∧
    (setModels st ms).sectorIdOffset =
      st.sectorIdOffset + sumFreshLengths st ms := by
  constructor
  · rw [setModels_eq_filtered]
    rw [mapGet_filter_key]
    · exact foldModels_update_tracked ms st m c hm hnd hc
    · exact List.elem_eq_true_of_mem (List.mem_map.mpr ⟨m, hm, rfl⟩)
  · rw [setModels_eq_filtered]
    exact foldModels_offset ms st hnd

/-- Re-registration of key `"a"` with a new model matrix. -/
def modelA2 : CadModelMetadata := ⟨"a", mat1, [sector0]⟩

/-- State tracking `modelA` at offset 0 with running offset 1 (the state
a fresh instance reaches after `setModels([modelA])`). -/
def stW8 : CoverageState := ⟨1, [("a", containerA)], 64, 64⟩

/-- Witness for C8: re-sending key `"a"` (new matrix) together with the
fresh model `"b"`: the `"a"` container is kept with only its renderable
matrix replaced. -/
theorem c8_update_transform_only_witness :
    mapGet stW8.containers "a" = some containerA ∧
      mapGet (setModels stW8 [modelA2, modelB]).containers "a" =
        some { containerA with renderable :=
          { containerA.renderable with matrix := mat1 } } := by
  refine ⟨rfl, ?_⟩
  exact (c8_update_transform_only stW8 [modelA2, modelB] modelA2 containerA
    (by decide) (List.mem_cons_self _ _) rfl).1

/-! ## Claim C7: proxy instances built per sector -/

theorem taWrite_self (len : ℕ) (a : ℕ → ℚ) (i : ℕ) (v : ℚ) (h : i < len) :
    taWrite len a i v i = v := by
  unfold taWrite
  simp [h]

theorem taWrite_ne (len : ℕ) (a : ℕ → ℚ) (i : ℕ) (v : ℚ) (j : ℕ) (h : j ≠ i) :
    taWrite len a i v j = a j := by
  unfold taWrite
  by_cases hc : i < len
  · simp [hc, Function.update_apply, h]
  · simp [hc]

theorem matWrite_self (len : ℕ) (a : ℕ → Option InstanceTransform) (i : ℕ)
    (v : InstanceTransform) (h : i < len) : matWrite len a i v i = some v := by
  unfold matWrite
  simp [h]

theorem matWrite_ne (len : ℕ) (a : ℕ → Option InstanceTransform) (i : ℕ)
    (v : InstanceTransform) (j : ℕ) (h : j ≠ i) :
    matWrite len a i v j = a j := by
  unfold matWrite
  by_cases hc : i < len
  · simp [hc, Function.update_apply, h]
  · simp [hc]

theorem addSector_count (o : ℕ) (m : ProxyMesh) (b : Box3) (i : ℕ) (cv : Vec3) :
    (addSector o m b i cv).count = m.count := rfl

theorem addSector_values_self (o : ℕ) (m : ProxyMesh) (b : Box3) (i : ℕ)
    (cv : Vec3) (h : i < m.count) :
    (addSector o m b i cv).instanceValues (4 * i) = (o : ℚ) + (i : ℚ) ∧
      (addSector o m b i cv).instanceValues (4 * i + 1) = cv.x ∧
      (addSector o m b i cv).instanceValues (4 * i + 2) = cv.y ∧
      (addSector o m b i cv).instanceValues (4 * i + 3) = cv.z := by
  unfold addSector
  dsimp only
  refine ⟨?_, ?_, ?_, ?_⟩
  · rw [taWrite_ne _ _ _ _ _ (by omega), taWrite_ne _ _ _ _ _ (by omega),
      taWrite_ne _ _ _ _ _ (by omega), taWrite_self _ _ _ _ (by omega)]
  · rw [taWrite_ne _ _ _ _ _ (by omega), taWrite_ne _ _ _ _ _ (by omega),
      taWrite_self _ _ _ _ (by omega)]
  · rw [taWrite_ne _ _ _ _ _ (by omega), taWrite_self _ _ _ _ (by omega)]
  · rw [taWrite_self _ _ _ _ (by omega)]

theorem addSector_values_ne (o : ℕ) (m : ProxyMesh) (b : Box3) (tid : ℕ)
    (cv : Vec3) (i p : ℕ) (hne : tid ≠ i)
    (hp : p = 4 * i ∨ p = 4 * i + 1 ∨ p = 4 * i + 2 ∨ p = 4 * i + 3) :
    (addSector o m b tid cv).instanceValues p = m.instanceValues p := by
  unfold addSector
  dsimp only
  rcases hp with h | h | h | h <;> subst h <;>
    rw [taWrite_ne _ _ _ _ _ (by omega), taWrite_ne _ _ _ _ _ (by omega),
      taWrite_ne _ _ _ _ _ (by omega), taWrite_ne _ _ _ _ _ (by omega)]

theorem addSector_transforms_self (o : ℕ) (m : ProxyMesh) (b : Box3) (i : ℕ)
    (cv : Vec3) (h : i < m.count) :
    (addSector o m b i cv).transforms i = some ⟨boxCenter b, boxSize b⟩ := by
  unfold addSector
  dsimp only
  exact matWrite_self _ _ _ _ h

theorem addSector_transforms_ne (o : ℕ) (m : ProxyMesh) (b : Box3) (tid : ℕ)
    (cv : Vec3) (i : ℕ) (hne : i ≠ tid) :
    (addSector o m b tid cv).transforms i = m.transforms i := by
  unfold addSector
  dsimp only
  exact matWrite_ne _ _ _ _ _ hne

theorem foldMesh_count (o : ℕ) (L : List SectorMetadata) (m : ProxyMesh) :
    (L.foldl (fun mm s => addSector o mm s.bounds s.id
      ⟨s.coverageFactors.yz, s.coverageFactors.xz, s.coverageFactors.xy⟩) m).count
      = m.count := by
  induction L generalizing m with
  | nil => rfl
  | cons t rest ih => rw [List.foldl_cons, ih, addSector_count]

theorem foldMesh_untouched (o : ℕ) (L : List SectorMetadata) (m : ProxyMesh)
    (i : ℕ) (h : ∀ t ∈ L, t.id ≠ i) :
    (L.foldl (fun mm s => addSector o mm s.bounds s.id
        ⟨s.coverageFactors.yz, s.coverageFactors.xz, s.coverageFactors.xy⟩)
      m).instanceValues (4 * i) = m.instanceValues (4 * i) ∧
    (L.foldl (fun mm s => addSector o mm s.bounds s.id
        ⟨s.coverageFactors.yz, s.coverageFactors.xz, s.coverageFactors.xy⟩)
      m).instanceValues (4 * i + 1) = m.instanceValues (4 * i + 1) ∧
    (L.foldl (fun mm s => addSector o mm s.bounds s.id
        ⟨s.coverageFactors.yz, s.coverageFactors.xz, s.coverageFactors.xy⟩)
      m).instanceValues (4 * i + 2) = m.instanceValues (4 * i + 2) ∧
    (L.foldl (fun mm s => addSector o mm s.bounds s.id
        ⟨s.coverageFactors.yz, s.coverageFactors.xz, s.coverageFactors.xy⟩)
      m).instanceValues (4 * i + 3) = m.instanceValues (4 * i + 3) ∧
    (L.foldl (fun mm s => addSector o mm s.bounds s.id
        ⟨s.coverageFactors.yz, s.coverageFactors.xz, s.coverageFactors.xy⟩)
      m).transforms i = m.transforms i := by
  induction L generalizing m with
  | nil => exact ⟨rfl, rfl, rfl, rfl, rfl⟩
  | cons t rest ih =>
    have ht : t.id ≠ i := h t (List.mem_cons_self _ _)
    have hrest : ∀ u ∈ rest, u.id ≠ i := fun u hu => h u (List.mem_cons_of_mem _ hu)
    rw [List.foldl_cons]
    rcases ih (addSector o m t.bounds t.id
      ⟨t.coverageFactors.yz, t.coverageFactors.xz, t.coverageFactors.xy⟩) hrest
      with ⟨h0, h1, h2, h3, h4⟩
    refine ⟨?_, ?_, ?_, ?_, ?_⟩
    · rw [h0, addSector_values_ne _ _ _ _ _ _ _ ht (Or.inl rfl)]
    · rw [h1, addSector_values_ne _ _ _ _ _ _ _ ht (Or.inr (Or.inl rfl))]
    · rw [h2, addSector_values_ne _ _ _ _ _ _ _ ht (Or.inr (Or.inr (Or.inl rfl)))]
    · rw [h3, addSector_values_ne _ _ _ _ _ _ _ ht (Or.inr (Or.inr (Or.inr rfl)))]
    · rw [h4, addSector_transforms_ne _ _ _ _ _ _ (Ne.symm ht)]

theorem foldMesh_values (o : ℕ) (L : List SectorMetadata) (m : ProxyMesh)
    (s : SectorMetadata) (hs : s ∈ L) (hnd : (L.map (fun t => t.id)).Nodup)
    (hid : s.id < m.count) :
    (L.foldl (fun mm t => addSector o mm t.bounds t.id
        ⟨t.coverageFactors.yz, t.coverageFactors.xz, t.coverageFactors.xy⟩)
      m).instanceValues (4 * s.id) = (o : ℚ) + (s.id : ℚ) ∧
    (L.foldl (fun mm t => addSector o mm t.bounds t.id
        ⟨t.coverageFactors.yz, t.coverageFactors.xz, t.coverageFactors.xy⟩)
      m).instanceValues (4 * s.id + 1) = s.coverageFactors.yz ∧
    (L.foldl (fun mm t => addSector o mm t.bounds t.id
        ⟨t.coverageFactors.yz, t.coverageFactors.xz, t.coverageFactors.xy⟩)
      m).instanceValues (4 * s.id + 2) = s.coverageFactors.xz ∧
    (L.foldl (fun mm t => addSector o mm t.bounds t.id
        ⟨t.coverageFactors.yz, t.coverageFactors.xz, t.coverageFactors.xy⟩)
      m).instanceValues (4 * s.id + 3) = s.coverageFactors.xy ∧
    (L.foldl (fun mm t => addSector o mm t.bounds t.id
        ⟨t.coverageFactors.yz, t.coverageFactors.xz, t.coverageFactors.xy⟩)
      m).transforms s.id = some ⟨boxCenter s.bounds, boxSize s.bounds⟩ := by
  induction L generalizing m with
  | nil => cases hs
  | cons t rest ih =>
    rw [List.map_cons, List.nodup_cons] at hnd
    rcases List.mem_cons.mp hs with heq | hmem
    · subst heq
      have hrest : ∀ u ∈ rest, u.id ≠ s.id := by
        intro u hu hh
        exact hnd.1 (hh ▸ List.mem_map.mpr ⟨u, hu, rfl⟩)
      rw [List.foldl_cons]
      rcases foldMesh_untouched o rest
        (addSector o m s.bounds s.id
          ⟨s.coverageFactors.yz, s.coverageFactors.xz, s.coverageFactors.xy⟩)
        s.id hrest with ⟨h0, h1, h2, h3, h4⟩
      rcases addSector_values_self o m s.bounds s.id
        ⟨s.coverageFactors.yz, s.coverageFactors.xz, s.coverageFactors.xy⟩ hid
        with ⟨g0, g1, g2, g3⟩
      exact ⟨h0.trans g0, h1.trans g1, h2.trans g2, h3.trans g3,
        h4.trans (addSector_transforms_self o m s.bounds s.id _ hid)⟩
    · have hne : t.id ≠ s.id := by
        intro hh
        exact hnd.1 (hh ▸ List.mem_map.mpr ⟨s, hmem, rfl⟩)
      rw [List.foldl_cons]
      exact ih (addSector o m t.bounds t.id
        ⟨t.coverageFactors.yz, t.coverageFactors.xz, t.coverageFactors.xy⟩)
        hmem hnd.2 (by rw [addSector_count]; exact hid)

/-- Claim C7 (amended): `setModels` on a fresh key builds one instanced
mesh with exactly one instance slot per sector; the slot used for a sector
is the sector's own `id` field (not its position in the flattened list —
they coincide only when the list is ordered by id), the encoded value is
`sectorIdOffset + sector.id`, the three coverage factors come from the
sector's `facesFile.coverageFactors` (stored as `(yz, xz, xy)`), the
instance transform is composed from the sector's bounding box, and the
group carries the model matrix. -/
theorem c7_instance_per_sector_by_id (o : ℕ) (sectors : List SectorMetadata)
    (mm : Matrix4) (s : SectorMetadata)
    (hnd : (sectors.map (fun t => t.id)).Nodup) (hs : s ∈ sectors)
    (hid : s.id < sectors.length) :
    (createSectorTreeMesh o sectors mm).mesh.count = sectors.length ∧
      (createSectorTreeMesh o sectors mm).matrix = mm ∧
      (createSectorTreeMesh o sectors mm).mesh.instanceValues (4 * s.id)
        = (o : ℚ) + (s.id : ℚ) ∧
      (createSectorTreeMesh o sectors mm).mesh.instanceValues (4 * s.id + 1)
        = s.coverageFactors.yz ∧
      (createSectorTreeMesh o sectors mm).mesh.instanceValues (4 * s.id + 2)
        = s.coverageFactors.xz ∧
      (createSectorTreeMesh o sectors mm).mesh.instanceValues (4 * s.id + 3)
        = s.coverageFactors.xy ∧
      (createSectorTreeMesh o sectors mm).mesh.transforms s.id
        = some ⟨boxCenter s.bounds, boxSize s.bounds⟩ := by
  unfold createSectorTreeMesh
  dsimp only
  rcases foldMesh_values o sectors ⟨sectors.length, fun _ => 0, fun _ => none⟩
    s hs hnd hid with ⟨h0, h1, h2, h3, h4⟩
  exact ⟨foldMesh_count o sectors _, rfl, h0, h1, h2, h3, h4⟩

/-- Counterexample to claim C7: with the two-sector list
`[{id 1, coverage (xy 10, xz 20, yz 30)}, {id 0, coverage (xy 40, xz 50, yz 60)}]`
(ids not in list order), the claim predicts that the instance of the
first-listed sector has local id 0, so interleaved value slot 1 holds its
yz coverage factor 30; the code instead keys slots by `sector.id`, so slot
1 holds 60, the yz factor of the sector listed second. -/
theorem c7_local_id_not_position :
    (createSectorTreeMesh 0
        [⟨1, boxUnit, ⟨10, 20, 30⟩⟩, ⟨0, boxUnit, ⟨40, 50, 60⟩⟩]
        mat0).mesh.instanceValues 1 = 60 ∧ (60 : ℚ) ≠ 30 := by
  constructor
  · decide
  · norm_num

/-- Witness for C7: in a two-sector list ordered by id, the slot of the
member sector `sector1` holds offset + 1 and its coverage factors. -/
theorem c7_instance_per_sector_by_id_witness :
    ((([sector0, sector1].map (fun t => t.id)).Nodup ∧ sector1 ∈ [sector0, sector1]) ∧
      (createSectorTreeMesh 5 [sector0, sector1] mat0).mesh.instanceValues
        (4 * sector1.id) = (5 : ℚ) + (sector1.id : ℚ)) := by
  refine ⟨⟨by decide, by decide⟩, ?_⟩
  exact (c7_instance_per_sector_by_id 5 [sector0, sector1] mat0 sector1
    (by decide) (by decide) (by decide)).2.2.1

/-! ## Weight-function analysis -/

theorem weight_def (x y : ℝ) :
    weight x y = 0.5 * (2.5 - (x * x + y * y)) +
      Real.exp (-Real.sqrt (x * x + y * y)) := rfl

/-- The weight is strictly positive whenever `x² + y² ≤ 2`; this covers
every pixel of a render target at least as wide as it is tall and, in
particular, every pixel position the claims' intended `rx, ry ∈ [-1, 1]²`
would produce. -/
theorem weight_pos_of_le_two (x y : ℝ) (h : x * x + y * y ≤ 2) :
    0 < weight x y := by
  rw [weight_def]
  have he : 0 < Real.exp (-Real.sqrt (x * x + y * y)) := Real.exp_pos _
  nlinarith

theorem weight_lt_linear (x y : ℝ) (h : 0 < x * x + y * y) :
    weight x y < 0.5 * (2.5 - (x * x + y * y)) + 1 := by
  rw [weight_def]
  have he : Real.exp (-Real.sqrt (x * x + y * y)) < 1 := by
    rw [Real.exp_lt_one_iff, neg_lt_zero]
    exact Real.sqrt_pos.mpr h
  linarith

/-- The weight is strictly negative once `x² + y² ≥ 4.5` — reachable by
the source's `rx` on render targets taller than wide. -/
theorem weight_neg_of_ge (x y : ℝ) (h : (4.5 : ℝ) ≤ x * x + y * y) :
    weight x y < 0 := by
  have h0 : (0 : ℝ) < x * x + y * y := by linarith
  have := weight_lt_linear x y h0
  linarith

theorem weight_at_corner : weight (-1 : ℝ) (-1) = 0.25 + Real.exp (-Real.sqrt 2) := by
  rw [weight_def]
  norm_num

theorem weight_at_mid_bottom : weight (0 : ℝ) (-1) = 0.75 + Real.exp (-1) := by
  rw [weight_def]
  norm_num [Real.sqrt_one]

/-- The two weights a 2×2 target's pixel `(x, y) = (1, 0)` receives under
the source's row-based `rx` and the claimed column-based `rx` differ. -/
theorem weight_corner_lt_mid : weight (-1 : ℝ) (-1) < weight 0 (-1) := by
  rw [weight_at_corner, weight_at_mid_bottom]
  have h1 : (1 : ℝ) < Real.sqrt 2 := by
    rw [Real.lt_sqrt (by norm_num)]
    norm_num
  have h2 : Real.exp (-Real.sqrt 2) < Real.exp (-1) := by
    rw [Real.exp_lt_exp]
    linarith
  linarith

/-! ## Sparse visibility-buffer lemmas -/

theorem getIdx_cons_zero (x : Option SectorVisibility)
    (xs : List (Option SectorVisibility)) : getIdx (x :: xs) 0 = x := rfl

theorem getIdx_cons_succ (x : Option SectorVisibility)
    (xs : List (Option SectorVisibility)) (n : ℕ) :
    getIdx (x :: xs) (n + 1) = getIdx xs n := rfl

theorem getIdx_nil (n : ℕ) : getIdx [] n = none := rfl

theorem getIdx_setIdx_self :
    ∀ (l : List (Option SectorVisibility)) (i : ℕ) (v : SectorVisibility),
      getIdx (setIdx l i v) i = some v
  | [], 0, _ => rfl
  | [], n + 1, v => by
      show getIdx (none :: setIdx [] n v) (n + 1) = some v
      rw [getIdx_cons_succ]
      exact getIdx_setIdx_self [] n v
  | _ :: _, 0, _ => rfl
  | x :: t, n + 1, v => by
      show getIdx (x :: setIdx t n v) (n + 1) = some v
      rw [getIdx_cons_succ]
      exact getIdx_setIdx_self t n v

theorem getIdx_setIdx_ne :
    ∀ (l : List (Option SectorVisibility)) (i : ℕ) (v : SectorVisibility)
      (j : ℕ), j ≠ i → getIdx (setIdx l i v) j = getIdx l j
  | [], 0, v, 0, h => absurd rfl h
  | [], 0, v, m + 1, _ => by
      show getIdx [some v] (m + 1) = getIdx [] (m + 1)
      rfl
  | [], n + 1, v, 0, _ => rfl
  | [], n + 1, v, m + 1, h => by
      show getIdx (none :: setIdx [] n v) (m + 1) = getIdx [] (m + 1)
      rw [getIdx_cons_succ]
      rw [getIdx_setIdx_ne [] n v m (fun hh => h (by omega))]
      rfl
  | x :: t, 0, v, 0, h => absurd rfl h
  | x :: t, 0, v, m + 1, _ => rfl
  | x :: t, n + 1, v, 0, _ => rfl
  | x :: t, n + 1, v, m + 1, h => by
      show getIdx (x :: setIdx t n v) (m + 1) = getIdx (x :: t) (m + 1)
      rw [getIdx_cons_succ, getIdx_cons_succ]
      exact getIdx_setIdx_ne t n v m (fun hh => h (by omega))

theorem getIdx_map_blank (vb : List (Option SectorVisibility)) (i : ℕ) :
    getIdx (vb.map (Option.map (fun e => { e with weight := 0 }))) i =
      (getIdx vb i).map (fun e => { e with weight := 0 }) := by
  induction vb generalizing i with
  | nil => cases i <;> rfl
  | cons x t ih =>
    cases i with
    | zero => rfl
    | succ n =>
      rw [List.map_cons, getIdx_cons_succ, getIdx_cons_succ]
      exact ih n

/-! ## Pixel-scan lemmas -/

theorem unpackStep_bg (w h : ℕ) (pixels : List ℕ)
    (vb : List (Option SectorVisibility)) (xy : ℕ × ℕ)
    (hd : decodeId pixels w xy = none) :
    unpackStep w h pixels vb xy = vb := by
  unfold decodeId at hd
  dsimp only at hd
  unfold unpackStep
  dsimp only
  by_cases hc : byteAt pixels (4 * (xy.1 + w * xy.2)) ≠ 255 ∨
      byteAt pixels (4 * (xy.1 + w * xy.2) + 1) ≠ 255 ∨
      byteAt pixels (4 * (xy.1 + w * xy.2) + 2) ≠ 255
  · rw [if_pos hc] at hd
    cases hd
  · rw [if_neg hc]

theorem unpackStep_hit (w h : ℕ) (pixels : List ℕ)
    (vb : List (Option SectorVisibility)) (xy : ℕ × ℕ) (id a : ℕ)
    (hd : decodeId pixels w xy = some (id, a)) :
    unpackStep w h pixels vb xy =
      setIdx vb id
        { sectorIdWithOffset := ((getIdx vb id).getD ⟨id, 0, a⟩).sectorIdWithOffset
          weight := ((getIdx vb id).getD ⟨id, 0, a⟩).weight +
            weight (rxAt w xy.2) (ryAt h xy.2)
          distance := Nat.min ((getIdx vb id).getD ⟨id, 0, a⟩).distance a } := by
  unfold decodeId at hd
  dsimp only at hd
  unfold unpackStep
  dsimp only
  by_cases hc : byteAt pixels (4 * (xy.1 + w * xy.2)) ≠ 255 ∨
      byteAt pixels (4 * (xy.1 + w * xy.2) + 1) ≠ 255 ∨
      byteAt pixels (4 * (xy.1 + w * xy.2) + 2) ≠ 255
  · rw [if_pos hc] at hd
    rw [if_pos hc]
    have hid : byteAt pixels (4 * (xy.1 + w * xy.2) + 2) +
        byteAt pixels (4 * (xy.1 + w * xy.2) + 1) * 255 +
        byteAt pixels (4 * (xy.1 + w * xy.2)) * 255 * 255 = id := by
      have := Option.some_inj.mp hd
      exact congrArg Prod.fst this
    have ha : byteAt pixels (4 * (xy.1 + w * xy.2) + 3) = a := by
      have := Option.some_inj.mp hd
      exact congrArg Prod.snd this
    rw [hid, ha]
    rfl
  · rw [if_neg hc] at hd
    cases hd

theorem alphasIn_nil (pixels : List ℕ) (w : ℕ) (id : ℕ) :
    alphasIn pixels w [] id = [] := rfl

theorem alphasIn_cons_bg (pixels : List ℕ) (w : ℕ) (xy : ℕ × ℕ)
    (L : List (ℕ × ℕ)) (id : ℕ) (hd : decodeId pixels w xy = none) :
    alphasIn pixels w (xy :: L) id = alphasIn pixels w L id := by
  unfold alphasIn
  rw [List.filterMap_cons, hd]

theorem alphasIn_cons_other (pixels : List ℕ) (w : ℕ) (xy : ℕ × ℕ)
    (L : List (ℕ × ℕ)) (id id' a : ℕ) (hd : decodeId pixels w xy = some (id', a))
    (hne : id' ≠ id) :
    alphasIn pixels w (xy :: L) id = alphasIn pixels w L id := by
  unfold alphasIn
  rw [List.filterMap_cons, hd]
  simp [hne]

theorem alphasIn_cons_hit (pixels : List ℕ) (w : ℕ) (xy : ℕ × ℕ)
    (L : List (ℕ × ℕ)) (id a : ℕ) (hd : decodeId pixels w xy = some (id, a)) :
    alphasIn pixels w (xy :: L) id = a :: alphasIn pixels w L id := by
  unfold alphasIn
  rw [List.filterMap_cons, hd]
  simp

theorem foldl_nat_min_pull (t : List ℕ) (a b : ℕ) :
    t.foldl Nat.min (Nat.min a b) = Nat.min a (t.foldl Nat.min b) := by
  induction t generalizing b with
  | nil => rfl
  | cons c t' ih =>
    rw [List.foldl_cons, List.foldl_cons]
    have hassoc : Nat.min (Nat.min a b) c = Nat.min a (Nat.min b c) := by
      simp only [Nat.min_def]
      split_ifs <;> omega
    rw [hassoc]
    exact ih (Nat.min b c)


theorem minAlpha_cons_cons (a b : ℕ) (t : List ℕ) :
    minAlpha (a :: b :: t) = Nat.min a (minAlpha (b :: t)) := by
  unfold minAlpha
  dsimp only
  rw [List.foldl_cons]
  exact foldl_nat_min_pull t a b

theorem nat_min_self (a : ℕ) : Nat.min a a = a := by
  simp [Nat.min_def]

theorem nat_min_assoc (a b c : ℕ) :
    Nat.min (Nat.min a b) c = Nat.min a (Nat.min b c) := by
  simp only [Nat.min_def]
  split_ifs <;> omega

/-- Distance accumulated by a pixel scan: the minimum of the alpha bytes
of the matching pixels, `Math.min`-folded onto whatever distance the entry
already carried. -/
theorem scan_distance (w h : ℕ) (pixels : List ℕ) (L : List (ℕ × ℕ))
    (vb : List (Option SectorVisibility)) (id : ℕ) :
    entryDistanceAt (L.foldl (unpackStep w h pixels) vb) id =
      carriedMin (getIdx vb id) (alphasIn pixels w L id) := by
  induction L generalizing vb with
  | nil =>
    rw [List.foldl_nil, alphasIn_nil]
    unfold entryDistanceAt carriedMin
    cases getIdx vb id <;> rfl
  | cons xy rest ih =>
    rw [List.foldl_cons]
    cases hd : decodeId pixels w xy with
    | none =>
      rw [unpackStep_bg w h pixels vb xy hd,
        alphasIn_cons_bg pixels w xy rest id hd]
      exact ih vb
    | some pr =>
      rcases pr with ⟨id', a⟩
      by_cases hne : id' = id
      · subst hne
        rw [unpackStep_hit w h pixels vb xy id' a hd,
          alphasIn_cons_hit pixels w xy rest id' a hd, ih]
        rw [getIdx_setIdx_self]
        cases hv : getIdx vb id' with
        | none =>
          simp only [hv, Option.getD_none]
          cases ht : alphasIn pixels w rest id' with
          | nil => simp [carriedMin, minAlpha]
          | cons b t =>
            simp only [carriedMin]
            rw [minAlpha_cons_cons]
            simp only [Option.some_inj]
            rw [nat_min_self]
        | some e =>
          simp only [hv, Option.getD_some]
          cases ht : alphasIn pixels w rest id' with
          | nil => simp [carriedMin, minAlpha]
          | cons b t =>
            simp only [carriedMin]
            rw [minAlpha_cons_cons]
            simp only [Option.some_inj]
            exact nat_min_assoc e.distance a (minAlpha (b :: t))
      · rw [unpackStep_hit w h pixels vb xy id' a hd,
          alphasIn_cons_other pixels w xy rest id id' a hd hne, ih]
        rw [getIdx_setIdx_ne _ _ _ _ (fun hh => hne hh.symm)]

theorem unpackStep_hit_fresh (w h : ℕ) (pixels : List ℕ)
    (vb : List (Option SectorVisibility)) (xy : ℕ × ℕ) (id a : ℕ)
    (hd : decodeId pixels w xy = some (id, a)) (hv : getIdx vb id = none) :
    unpackStep w h pixels vb xy =
      setIdx vb id ⟨id, 0 + weight (rxAt w xy.2) (ryAt h xy.2), Nat.min a a⟩ := by
  rw [unpackStep_hit w h pixels vb xy id a hd, hv]
  rfl

theorem unpackStep_hit_existing (w h : ℕ) (pixels : List ℕ)
    (vb : List (Option SectorVisibility)) (xy : ℕ × ℕ) (id a : ℕ)
    (e : SectorVisibility) (hd : decodeId pixels w xy = some (id, a))
    (hv : getIdx vb id = some e) :
    unpackStep w h pixels vb xy =
      setIdx vb id ⟨e.sectorIdWithOffset,
        e.weight + weight (rxAt w xy.2) (ryAt h xy.2), Nat.min e.distance a⟩ := by
  rw [unpackStep_hit w h pixels vb xy id a hd, hv]
  rfl

/-- Projection: the persistent buffer after a call is the unpacked one. -/
theorem orderSectors_buffer_eq (st : CoverageState) (bufs : Buffers)
    (pixels : List ℕ) :
    (orderSectorsByVisibility st bufs pixels).1.sectorVisibilityBuffer =
      unpackSectorVisibility st.renderTargetWidth st.renderTargetHeight pixels
        (prepareBuffers st bufs).sectorVisibilityBuffer := rfl

theorem prepareBuffers_svb (st : CoverageState) (bufs : Buffers) :
    (prepareBuffers st bufs).sectorVisibilityBuffer =
      bufs.sectorVisibilityBuffer.map
        (Option.map (fun e => { e with weight := 0 })) := rfl

/-- Projection: the returned value of a call in terms of the pipeline
stages. -/
theorem orderSectors_result_eq (st : CoverageState) (bufs : Buffers)
    (pixels : List ℕ) :
    (orderSectorsByVisibility st bufs pixels).2 =
      resolveAll st
        (((unpackSectorVisibility st.renderTargetWidth st.renderTargetHeight
            pixels (prepareBuffers st bufs).sectorVisibilityBuffer).filterMap
          id).foldl (fun acc x => x.weight + acc) 0)
        (sortByWeightDesc (filterPositive
          ((unpackSectorVisibility st.renderTargetWidth st.renderTargetHeight
            pixels (prepareBuffers st bufs).sectorVisibilityBuffer).filterMap
            id))) := rfl

theorem carriedMin_blank (o : Option SectorVisibility) (l : List ℕ) :
    carriedMin (o.map (fun e => { e with weight := 0 })) l = carriedMin o l := by
  cases o <;> cases l <;> rfl

/-! ## Claim C3: minimum depth and carry-over across calls -/

/-- Claim C3 (amended): `prepareBuffers` zeroes only the accumulated
weights; for every sector id the distance reported in the persistent
buffer after a call is the minimum alpha byte over the current buffer's
matching pixels, `Math.min`-folded onto the distance already recorded for
that sector by earlier calls (`carriedMin`) — depth observed in earlier
calls therefore *does* influence the result whenever the sector already
has an entry. -/
theorem c3_depth_min_with_carryover (st : CoverageState) (bufs : Buffers)
    (pixels : List ℕ) (id : ℕ) :
    (prepareBuffers st bufs).sectorVisibilityBuffer =
      bufs.sectorVisibilityBuffer.map
        (Option.map (fun e => { e with weight := 0 })) ∧
    entryDistanceAt
        (orderSectorsByVisibility st bufs pixels).1.sectorVisibilityBuffer id =
      carriedMin (getIdx bufs.sectorVisibilityBuffer id)
        (matchingAlphas st.renderTargetWidth st.renderTargetHeight pixels id) := by
  refine ⟨rfl, ?_⟩
  rw [orderSectors_buffer_eq]
  unfold unpackSectorVisibility matchingAlphas
  rw [scan_distance, prepareBuffers_svb, getIdx_map_blank, carriedMin_blank]

theorem orderSectors_buffers_pair (st : CoverageState) (bufs : Buffers)
    (pixels : List ℕ) :
    (orderSectorsByVisibility st bufs pixels).1 =
      ⟨(prepareBuffers st bufs).rtBufferLen,
        unpackSectorVisibility st.renderTargetWidth st.renderTargetHeight
          pixels (prepareBuffers st bufs).sectorVisibilityBuffer⟩ := rfl

theorem filterPositive_nil : filterPositive [] = [] := rfl

theorem filterPositive_cons_pos {e : SectorVisibility}
    {l : List SectorVisibility} (h : 0 < e.weight) :
    filterPositive (e :: l) = e :: filterPositive l := by
  simp only [filterPositive]
  rw [if_pos h]

theorem filterPositive_cons_neg {e : SectorVisibility}
    {l : List SectorVisibility} (h : ¬ 0 < e.weight) :
    filterPositive (e :: l) = filterPositive l := by
  simp only [filterPositive]
  rw [if_neg h]

theorem sortByWeightDesc_nil : sortByWeightDesc [] = [] := rfl

theorem sortByWeightDesc_singleton (e : SectorVisibility) :
    sortByWeightDesc [e] = [e] := by
  simp only [sortByWeightDesc, insertByWeightDesc]

theorem resolveAll_singleton (st : CoverageState) (tw : ℝ)
    (x : SectorVisibility) (c : SectorContainer)
    (hfind : findSectorContainer st x.sectorIdWithOffset = some c) :
    resolveAll st tw [x] = Except.ok
      [{ model := c.model, sectorId := x.sectorIdWithOffset - c.sectorIdOffset,
         priority := x.weight / tw, depth := x.distance }] := by
  simp only [resolveAll]
  rw [hfind]

/-- Counterexample to claim C3: two successive 1×1 queries on the same
instance.  The first sees sector 0 at alpha 7; the second sees sector 0 at
alpha 200 only — yet the reported depth of the second call is 7, the
carried-over minimum, not 200, the minimum over the current buffer. -/
theorem c3_depth_leaks_across_calls :
    resultDepths (orderSectorsByVisibility stOne
        (orderSectorsByVisibility stOne ⟨0, []⟩ pixelsDepth7).1
        pixelsDepth200).2 = [7] ∧
      matchingAlphas 1 1 pixelsDepth200 0 = [200] ∧ (7 : ℕ) ≠ 200 := by
  have hvis1 : unpackSectorVisibility 1 1 pixelsDepth7 [] = [some entryOne7] := by
    unfold unpackSectorVisibility
    rw [show pixelCoords 1 1 = [(0, 0)] from rfl]
    rw [List.foldl_cons,
      unpackStep_hit_fresh 1 1 pixelsDepth7 [] (0, 0) 0 7 rfl rfl]
    rfl
  have hbuf1 : (orderSectorsByVisibility stOne ⟨0, []⟩ pixelsDepth7).1 =
      ⟨4, [some entryOne7]⟩ := by
    rw [orderSectors_buffers_pair]
    rw [show (prepareBuffers stOne ⟨0, []⟩).rtBufferLen = 4 from rfl]
    rw [show (prepareBuffers stOne ⟨0, []⟩).sectorVisibilityBuffer = [] from rfl]
    rw [show stOne.renderTargetWidth = 1 from rfl,
      show stOne.renderTargetHeight = 1 from rfl]
    rw [hvis1]
  rw [hbuf1]
  have hvis2 : unpackSectorVisibility 1 1 pixelsDepth200
      (prepareBuffers stOne ⟨4, [some entryOne7]⟩).sectorVisibilityBuffer =
      [some ⟨0, 0 + weight (rxAt 1 0) (ryAt 1 0), Nat.min (Nat.min 7 7) 200⟩] := by
    unfold unpackSectorVisibility
    rw [show pixelCoords 1 1 = [(0, 0)] from rfl]
    rw [List.foldl_cons,
      unpackStep_hit_existing 1 1 pixelsDepth200
        (prepareBuffers stOne ⟨4, [some entryOne7]⟩).sectorVisibilityBuffer
        (0, 0) 0 200 ⟨0, 0, Nat.min 7 7⟩ rfl rfl]
    rfl
  have hw : (0 : ℝ) < 0 + weight (rxAt 1 0) (ryAt 1 0) := by
    rw [zero_add, show rxAt 1 0 = -1 from by norm_num [rxAt],
      show ryAt 1 0 = -1 from by norm_num [ryAt]]
    exact weight_pos_of_le_two _ _ (by norm_num)
  have hres : (orderSectorsByVisibility stOne ⟨4, [some entryOne7]⟩
      pixelsDepth200).2 = Except.ok
      [{ model := modelOneSector, sectorId := 0,
         priority := (0 + weight (rxAt 1 0) (ryAt 1 0)) /
           ((0 + weight (rxAt 1 0) (ryAt 1 0)) + 0),
         depth := Nat.min (Nat.min 7 7) 200 }] := by
    rw [orderSectors_result_eq]
    rw [show stOne.renderTargetWidth = 1 from rfl,
      show stOne.renderTargetHeight = 1 from rfl]
    rw [hvis2]
    rw [show ([some (⟨0, 0 + weight (rxAt 1 0) (ryAt 1 0),
        Nat.min (Nat.min 7 7) 200⟩ : SectorVisibility)].filterMap id) =
      [⟨0, 0 + weight (rxAt 1 0) (ryAt 1 0), Nat.min (Nat.min 7 7) 200⟩]
      from rfl]
    rw [List.foldl_cons, List.foldl_nil]
    rw [filterPositive_cons_pos hw, filterPositive_nil,
      sortByWeightDesc_singleton]
    rw [resolveAll_singleton stOne _
      ⟨0, 0 + weight (rxAt 1 0) (ryAt 1 0), Nat.min (Nat.min 7 7) 200⟩
      containerOne rfl]
    rfl
  rw [hres]
  refine ⟨?_, by decide, by decide⟩
  unfold resultDepths
  simp

/-! ## Claim C4: unresolvable decoded ids abort the call -/

theorem mem_filterPositive {e : SectorVisibility} {l : List SectorVisibility}
    (he : e ∈ l) (hw : 0 < e.weight) : e ∈ filterPositive l := by
  induction l with
  | nil => cases he
  | cons f t ih =>
    rcases List.mem_cons.mp he with heq | hmem
    · subst heq
      rw [filterPositive_cons_pos hw]
      exact List.mem_cons_self _ _
    · by_cases hf : 0 < f.weight
      · rw [filterPositive_cons_pos hf]
        exact List.mem_cons_of_mem _ (ih hmem)
      · rw [filterPositive_cons_neg hf]
        exact ih hmem

theorem mem_insertByWeightDesc {e f : SectorVisibility}
    {l : List SectorVisibility} (he : e ∈ l ∨ e = f) :
    e ∈ insertByWeightDesc f l := by
  induction l with
  | nil =>
    rcases he with h | h
    · cases h
    · simp only [insertByWeightDesc, h]
      exact List.mem_singleton_self _
  | cons g t ih =>
    simp only [insertByWeightDesc]
    by_cases hc : g.weight < f.weight
    · rw [if_pos hc]
      rcases he with h | h
      · exact List.mem_cons_of_mem _ h
      · subst h
        exact List.mem_cons_self _ _
    · rw [if_neg hc]
      rcases he with h | h
      · rcases List.mem_cons.mp h with h' | h'
        · subst h'
          exact List.mem_cons_self _ _
        · exact List.mem_cons_of_mem _ (ih (Or.inl h'))
      · exact List.mem_cons_of_mem _ (ih (Or.inr h))

theorem mem_sortByWeightDesc {e : SectorVisibility} {l : List SectorVisibility}
    (he : e ∈ l) : e ∈ sortByWeightDesc l := by
  induction l with
  | nil => cases he
  | cons f t ih =>
    simp only [sortByWeightDesc]
    rcases List.mem_cons.mp he with heq | hmem
    · subst heq
      exact mem_insertByWeightDesc (Or.inr rfl)
    · exact mem_insertByWeightDesc (Or.inl (ih hmem))

theorem resolveAll_error_of_unresolvable (st : CoverageState) (tw : ℝ)
    {l : List SectorVisibility} {e : SectorVisibility} (he : e ∈ l)
    (hn : findSectorContainer st e.sectorIdWithOffset = none) :
    exceptOk (resolveAll st tw l) = false := by
  induction l with
  | nil => cases he
  | cons x t ih =>
    simp only [resolveAll]
    rcases List.mem_cons.mp he with heq | hmem
    · subst heq
      rw [hn]
      rfl
    · cases hfind : findSectorContainer st x.sectorIdWithOffset with
      | none => rfl
      | some c =>
        cases hrec : resolveAll st tw t with
        | error msg => rfl
        | ok rest =>
          have := ih hmem
          rw [hrec] at this
          cases this

/-- Claim C4 (amended): when a decoded sector id accumulates positive
weight but lies in no tracked model's id range, `orderSectorsByVisibility`
does not complete with a result built from the remaining samples — the
`Sector ID ... is out of range` error thrown by `findSectorContainer`
propagates and the call fails. -/
theorem c4_out_of_range_aborts (st : CoverageState) (bufs : Buffers)
    (pixels : List ℕ) (e : SectorVisibility)
    (he : e ∈ (unpackSectorVisibility st.renderTargetWidth
        st.renderTargetHeight pixels
        (prepareBuffers st bufs).sectorVisibilityBuffer).filterMap id)
    (hw : 0 < e.weight)
    (hn : findSectorContainer st e.sectorIdWithOffset = none) :
    exceptOk (orderSectorsByVisibility st bufs pixels).2 = false := by
  rw [orderSectors_result_eq]
  exact resolveAll_error_of_unresolvable st _
    (mem_sortByWeightDesc (mem_filterPositive he hw)) hn

/-- Counterexample to claim C4: a 1×1 read-back decoding to global id 5
with only the range `[0, 1)` tracked makes the call throw
`Sector ID 5 is out of range`; it does not complete with a result built
from the remaining samples. -/
theorem c4_out_of_range_throws_concrete :
    (orderSectorsByVisibility stOne ⟨0, []⟩ pixelsStray).2 =
      Except.error "Sector ID 5 is out of range" := by
  have hvis : unpackSectorVisibility 1 1 pixelsStray [] = [none, none, none,
      none, none, some entryStray] := by
    unfold unpackSectorVisibility
    rw [show pixelCoords 1 1 = [(0, 0)] from rfl]
    rw [List.foldl_cons,
      unpackStep_hit_fresh 1 1 pixelsStray [] (0, 0) 5 3 rfl rfl]
    rfl
  have hw : (0 : ℝ) < entryStray.weight := by
    unfold entryStray
    rw [show (⟨5, 0 + weight (rxAt 1 0) (ryAt 1 0), Nat.min 3 3⟩ :
      SectorVisibility).weight = 0 + weight (rxAt 1 0) (ryAt 1 0) from rfl]
    rw [zero_add, show rxAt 1 0 = -1 from by norm_num [rxAt],
      show ryAt 1 0 = -1 from by norm_num [ryAt]]
    exact weight_pos_of_le_two _ _ (by norm_num)
  rw [orderSectors_result_eq]
  rw [show stOne.renderTargetWidth = 1 from rfl,
    show stOne.renderTargetHeight = 1 from rfl]
  rw [show (prepareBuffers stOne ⟨0, []⟩).sectorVisibilityBuffer = [] from rfl]
  rw [hvis]
  rw [show ([none, none, none, none, none, some entryStray] :
      List (Option SectorVisibility)).filterMap id = [entryStray] from rfl]
  rw [List.foldl_cons, List.foldl_nil]
  rw [filterPositive_cons_pos hw, filterPositive_nil, sortByWeightDesc_singleton]
  simp only [resolveAll]
  rw [show findSectorContainer stOne entryStray.sectorIdWithOffset = none
    from rfl]
  rfl

/-- Witness for the amended C4 theorem at the concrete stray-id input. -/
theorem c4_out_of_range_aborts_witness :
    (0 : ℝ) < entryStray.weight ∧
      exceptOk (orderSectorsByVisibility stOne ⟨0, []⟩ pixelsStray).2 = false := by
  have hvis : unpackSectorVisibility stOne.renderTargetWidth
      stOne.renderTargetHeight pixelsStray
      (prepareBuffers stOne ⟨0, []⟩).sectorVisibilityBuffer =
      [none, none, none, none, none, some entryStray] := by
    rw [show stOne.renderTargetWidth = 1 from rfl,
      show stOne.renderTargetHeight = 1 from rfl,
      show (prepareBuffers stOne ⟨0, []⟩).sectorVisibilityBuffer = [] from rfl]
    unfold unpackSectorVisibility
    rw [show pixelCoords 1 1 = [(0, 0)] from rfl]
    rw [List.foldl_cons,
      unpackStep_hit_fresh 1 1 pixelsStray [] (0, 0) 5 3 rfl rfl]
    rfl
  have hw : (0 : ℝ) < entryStray.weight := by
    rw [show entryStray.weight = 0 + weight (rxAt 1 0) (ryAt 1 0) from rfl]
    rw [zero_add, show rxAt 1 0 = -1 from by norm_num [rxAt],
      show ryAt 1 0 = -1 from by norm_num [ryAt]]
    exact weight_pos_of_le_two _ _ (by norm_num)
  refine ⟨hw, ?_⟩
  apply c4_out_of_range_aborts stOne ⟨0, []⟩ pixelsStray entryStray
  · rw [hvis]
    rw [show ([none, none, none, none, none, some entryStray] :
        List (Option SectorVisibility)).filterMap id = [entryStray] from rfl]
    exact List.mem_singleton_self _
  · exact hw
  · rfl

/-! ## Claim C1: priority normalization -/

theorem visTall_eval : unpackSectorVisibility 1 4 pixelsTall [] =
    [some entryTall0, some entryTall1] := by
  unfold unpackSectorVisibility
  rw [show pixelCoords 1 4 = [(0, 0), (0, 1), (0, 2), (0, 3)] from rfl]
  rw [List.foldl_cons, unpackStep_bg 1 4 pixelsTall [] (0, 0) rfl]
  rw [List.foldl_cons,
    unpackStep_hit_fresh 1 4 pixelsTall [] (0, 1) 0 7 rfl rfl]
  rw [List.foldl_cons,
    unpackStep_bg 1 4 pixelsTall
      (setIdx [] 0 ⟨0, 0 + weight (rxAt 1 1) (ryAt 4 1), Nat.min 7 7⟩)
      (0, 2) rfl]
  rw [List.foldl_cons,
    unpackStep_hit_fresh 1 4 pixelsTall
      (setIdx [] 0 ⟨0, 0 + weight (rxAt 1 1) (ryAt 4 1), Nat.min 7 7⟩)
      (0, 3) 1 9 rfl rfl]
  rfl

theorem entryTall0_weight_pos : 0 < entryTall0.weight := by
  rw [show entryTall0.weight = 0 + weight (rxAt 1 1) (ryAt 4 1) from rfl,
    zero_add, show rxAt 1 1 = 1 from by norm_num [rxAt],
    show ryAt 4 1 = -(1/2) from by norm_num [ryAt]]
  exact weight_pos_of_le_two _ _ (by norm_num)

theorem entryTall1_weight_neg : entryTall1.weight < 0 := by
  rw [show entryTall1.weight = 0 + weight (rxAt 1 3) (ryAt 4 3) from rfl,
    zero_add, show rxAt 1 3 = 5 from by norm_num [rxAt],
    show ryAt 4 3 = 1/2 from by norm_num [ryAt]]
  exact weight_neg_of_ge _ _ (by norm_num)

/-- Claim C1 fails on the code: on a 1×4 render target (taller than wide)
with sectors 0 and 1 hit once each, the row-based `rx` gives sector 1's
pixel the weight `weight 5 (1/2) < 0`, the total weight is negative, and
the single returned entry's priority `w0 / (w1 + w0)` is negative: the
result is non-empty, its priority lies outside `[0, 1]` and the priorities
do not sum to 1. -/
theorem c1_negative_priority_at_tall_target :
    resultLength (orderSectorsByVisibility stTall ⟨0, []⟩ pixelsTall).2 = 1 ∧
      resultPrioritySum (orderSectorsByVisibility stTall ⟨0, []⟩ pixelsTall).2
        < 0 := by
  have hneg : ¬ 0 < entryTall1.weight := not_lt.mpr (le_of_lt entryTall1_weight_neg)
  have hres : (orderSectorsByVisibility stTall ⟨0, []⟩ pixelsTall).2 =
      Except.ok
      [{ model := modelTwoSectors, sectorId := 0,
         priority := entryTall0.weight /
           (entryTall1.weight + (entryTall0.weight + 0)),
         depth := Nat.min 7 7 }] := by
    rw [orderSectors_result_eq]
    rw [show stTall.renderTargetWidth = 1 from rfl,
      show stTall.renderTargetHeight = 4 from rfl,
      show (prepareBuffers stTall ⟨0, []⟩).sectorVisibilityBuffer = [] from rfl]
    rw [visTall_eval]
    rw [show ([some entryTall0, some entryTall1] :
        List (Option SectorVisibility)).filterMap id =
      [entryTall0, entryTall1] from rfl]
    rw [List.foldl_cons, List.foldl_cons, List.foldl_nil]
    rw [filterPositive_cons_pos entryTall0_weight_pos,
      filterPositive_cons_neg hneg, filterPositive_nil,
      sortByWeightDesc_singleton]
    rw [resolveAll_singleton stTall _ entryTall0 containerTall rfl]
    rfl
  rw [hres]
  refine ⟨rfl, ?_⟩
  have hw0 : entryTall0.weight = weight 1 (-(1/2)) := by
    rw [show entryTall0.weight = 0 + weight (rxAt 1 1) (ryAt 4 1) from rfl,
      zero_add, show rxAt 1 1 = 1 from by norm_num [rxAt],
      show ryAt 4 1 = -(1/2) from by norm_num [ryAt]]
  have hw1 : entryTall1.weight = weight 5 (1/2) := by
    rw [show entryTall1.weight = 0 + weight (rxAt 1 3) (ryAt 4 3) from rfl,
      zero_add, show rxAt 1 3 = 5 from by norm_num [rxAt],
      show ryAt 4 3 = 1/2 from by norm_num [ryAt]]
  have hAlt : weight (1 : ℝ) (-(1/2)) < 13/8 := by
    have hb := weight_lt_linear (1 : ℝ) (-(1/2)) (by norm_num)
    have hc : (0.5 : ℝ) * (2.5 - (1 * 1 + -(1/2) * -(1/2))) + 1 = 13/8 := by
      norm_num
    rw [hc] at hb
    exact hb
  have hBlt : weight (5 : ℝ) (1/2) < -(83/8) := by
    have hb := weight_lt_linear (5 : ℝ) (1/2) (by norm_num)
    have hc : (0.5 : ℝ) * (2.5 - (5 * 5 + 1/2 * (1/2))) + 1 = -(83/8) := by
      norm_num
    rw [hc] at hb
    exact hb
  have htot : entryTall1.weight + (entryTall0.weight + 0) < 0 := by
    rw [hw0, hw1]
    linarith
  have hdiv : entryTall0.weight /
      (entryTall1.weight + (entryTall0.weight + 0)) < 0 :=
    div_neg_of_pos_of_neg entryTall0_weight_pos htot
  unfold resultPrioritySum
  simpa using hdiv

/-! ## Claims C10 and C2 -/

/-- Claim C10 fails on the code: on a 1×4 render target, a single
non-background pixel (row 3) decodes to sector 1, yet the call returns an
empty list — the pixel's weight `weight 5 (1/2)` is negative because the
source computes `rx` from the row index against half the *width*, so the
positive-weight filter drops a sector that was hit in the current buffer. -/
theorem c10_hit_sector_dropped :
    (orderSectorsByVisibility stTall ⟨0, []⟩ pixelsTallOne).2 =
      Except.ok [] ∧ matchingAlphas 1 4 pixelsTallOne 1 = [9] := by
  have hvis : unpackSectorVisibility 1 4 pixelsTallOne [] =
      [none, some entryTall1] := by
    unfold unpackSectorVisibility
    rw [show pixelCoords 1 4 = [(0, 0), (0, 1), (0, 2), (0, 3)] from rfl]
    rw [List.foldl_cons, unpackStep_bg 1 4 pixelsTallOne [] (0, 0) rfl]
    rw [List.foldl_cons, unpackStep_bg 1 4 pixelsTallOne [] (0, 1) rfl]
    rw [List.foldl_cons, unpackStep_bg 1 4 pixelsTallOne [] (0, 2) rfl]
    rw [List.foldl_cons,
      unpackStep_hit_fresh 1 4 pixelsTallOne [] (0, 3) 1 9 rfl rfl]
    rfl
  constructor
  · rw [orderSectors_result_eq]
    rw [show stTall.renderTargetWidth = 1 from rfl,
      show stTall.renderTargetHeight = 4 from rfl,
      show (prepareBuffers stTall ⟨0, []⟩).sectorVisibilityBuffer = [] from rfl]
    rw [hvis]
    rw [show ([none, some entryTall1] :
        List (Option SectorVisibility)).filterMap id = [entryTall1] from rfl]
    rw [List.foldl_cons, List.foldl_nil]
    rw [filterPositive_cons_neg (not_lt.mpr (le_of_lt entryTall1_weight_neg)),
      filterPositive_nil, sortByWeightDesc_nil]
    rfl
  · decide

/-- Claim C2 fails on the code at the pixel `(x, y) = (1, 0)` of a 2×2
target: the aggregation adds `weight rx ry` with
`rx = (y - w/2)/(w/2) = -1` computed from the *row* index `y`, not
`rx = (x - w/2)/(w/2) = 0` as the claim states, and the two weights
differ. -/
theorem c2_rx_uses_row_index :
    entryWeightAt (unpackSectorVisibility 2 2 pixelsSquare []) 0 =
      some (weight (-1) (-1)) ∧ weight (-1) (-1) ≠ weight 0 (-1) := by
  have hvis : unpackSectorVisibility 2 2 pixelsSquare [] =
      [some entrySquare] := by
    unfold unpackSectorVisibility
    rw [show pixelCoords 2 2 = [(0, 0), (1, 0), (0, 1), (1, 1)] from rfl]
    rw [List.foldl_cons, unpackStep_bg 2 2 pixelsSquare [] (0, 0) rfl]
    rw [List.foldl_cons,
      unpackStep_hit_fresh 2 2 pixelsSquare [] (1, 0) 0 0 rfl rfl]
    rw [List.foldl_cons,
      unpackStep_bg 2 2 pixelsSquare
        (setIdx [] 0 ⟨0, 0 + weight (rxAt 2 0) (ryAt 2 0), Nat.min 0 0⟩)
        (0, 1) rfl]
    rw [List.foldl_cons,
      unpackStep_bg 2 2 pixelsSquare
        (setIdx [] 0 ⟨0, 0 + weight (rxAt 2 0) (ryAt 2 0), Nat.min 0 0⟩)
        (1, 1) rfl]
    rfl
  constructor
  · rw [hvis]
    rw [show entryWeightAt [some entrySquare] 0 = some entrySquare.weight
      from rfl]
    rw [show entrySquare.weight = 0 + weight (rxAt 2 0) (ryAt 2 0) from rfl,
      zero_add, show rxAt 2 0 = -1 from by norm_num [rxAt],
      show ryAt 2 0 = -1 from by norm_num [ryAt]]
  · exact ne_of_lt weight_corner_lt_mid
